import Mathlib

/-!
Verification of the MSBTE project-generation pipeline
(`supabase/functions/generate-project/index.ts`, the feature-complete
variant at lines 1054-2020).

Text is modelled as `List Char`.  JavaScript regular expressions are
modelled by explicit scanning functions that implement the exact
leftmost-match / greedy / lazy semantics of the concrete patterns used
by the source.  JavaScript `\s` and `trim()` whitespace, `\w` word
characters and ASCII case folding are given explicitly; the source only
ever folds ASCII letters, so `toLowerCase`/`toUpperCase` are modelled on
the ASCII range.
-/

/-- The JavaScript `\s` character class (also the `trim()` set):
ASCII whitespace plus the Unicode space separators used by JS. -/
def jsSpace (c : Char) : Bool :=
  c = ' ' || c = '\t' || c = '\n' || c = '\x0b' || c = '\x0c' || c = '\r' ||
  c = '\u00A0' || c = '\u1680' || ('\u2000' ≤ c && c ≤ '\u200A') ||
  c = '\u2028' || c = '\u2029' || c = '\u202F' || c = '\u205F' ||
  c = '\u3000' || c = '\uFEFF'

/-- ASCII lower-casing (JS `toLowerCase` on the ASCII range). -/
def lowerAscii (c : Char) : Char :=
  if 'A' ≤ c ∧ c ≤ 'Z' then Char.ofNat (c.toNat + 32) else c

/-- ASCII upper-casing (for `trimmed === trimmed.toUpperCase()`). -/
def upperAscii (c : Char) : Char :=
  if 'a' ≤ c ∧ c ≤ 'z' then Char.ofNat (c.toNat - 32) else c

/-- Case-insensitive character comparison, as performed by a JS regex
with the `i` flag on ASCII input. -/
def ciEq (a b : Char) : Bool := lowerAscii a = lowerAscii b

/-- JS `\w` (ASCII word character). -/
def isWordChar (c : Char) : Bool :=
  ('a' ≤ c && c ≤ 'z') || ('A' ≤ c && c ≤ 'Z') || ('0' ≤ c && c ≤ '9') || c = '_'

/-- JS `\d`. -/
def isDigitChar (c : Char) : Bool := '0' ≤ c && c ≤ '9'

/-- The characters the ten section-marker names are built from. -/
def markerChars : List Char :=
  ['A','B','C','D','E','F','G','H','I','J','K','L','M',
   'N','O','P','Q','R','S','T','U','V','W','X','Y','Z','_']

/-- Last element with a default (own definition for clean equations). -/
def lastD : List Char → Char → Char
  | [], d => d
  | [c], _ => c
  | _ :: c :: cs, d => lastD (c :: cs) d

/-- Remove trailing JS whitespace (the right half of `String.trim`). -/
def trimRight : List Char → List Char
  | [] => []
  | c :: cs =>
    let r := trimRight cs
    if r.isEmpty && jsSpace c then [] else c :: r

/-- JS `String.prototype.trim`. -/
def jsTrim (s : List Char) : List Char := trimRight (s.dropWhile jsSpace)

/-- JS `String.prototype.split('\n')`. -/
def splitNl : List Char → List (List Char)
  | [] => [[]]
  | c :: cs =>
    let r := splitNl cs
    if c = '\n' then [] :: r
    else
      match r with
      | [] => [[c]]
      | l :: ls => (c :: l) :: ls

/-- JS `String.prototype.split(',')`. -/
def splitComma : List Char → List (List Char)
  | [] => [[]]
  | c :: cs =>
    let r := splitComma cs
    if c = ',' then [] :: r
    else
      match r with
      | [] => [[c]]
      | l :: ls => (c :: l) :: ls

/-- Newline-joining of content lines (`lines.join('\n')`). -/
def joinNl : List (List Char) → List Char
  | [] => []
  | [l] => l
  | l :: l2 :: ls => l ++ '\n' :: joinNl (l2 :: ls)

/-- Space-joining of regex matches (`matches.join(' ')`). -/
def joinSpace : List (List Char) → List Char
  | [] => []
  | [r] => r
  | r :: r2 :: rs => r ++ ' ' :: joinSpace (r2 :: rs)

/-- JS `String.prototype.includes` for a pattern string. -/
def containsSub (pat : List Char) : List Char → Bool
  | [] => pat.isEmpty
  | c :: cs => pat.isPrefixOf (c :: cs) || containsSub pat cs

/-- Whether the string contains the substring `##` (two adjacent `#`). -/
def hasHH : List Char → Bool
  | [] => false
  | [_] => false
  | a :: b :: cs => (a = '#' && b = '#') || hasHH (b :: cs)

/-- No `#` occurs at all. -/
def noHash (s : List Char) : Bool := s.all (fun c => !(c = '#'))

/-!
## The section extractor

`extractSection` in the source builds, per marker,
`new RegExp("## " + marker + "\\s*\\n([\\s\\S]*?)(?=##|$)", 'i')`
and returns `match ? match[1].trim() : ''`.

`ciStrip` consumes a case-insensitive literal; `matchWsNl` implements
the greedy `\s*\n` (consume the leading whitespace run up to and
including its last newline); `findHeader` finds the leftmost position
where `## marker\s*\n` matches and returns the remainder; `takeUntilHH`
implements the lazy `([\s\S]*?)(?=##|$)` capture (everything up to the
first `##`, or the whole remainder when there is none).
-/

def ciStrip : List Char → List Char → Option (List Char)
  | [], s => some s
  | _ :: _, [] => none
  | p :: ps, c :: cs => if ciEq p c then ciStrip ps cs else none

def matchWsNl : List Char → Option (List Char)
  | [] => none
  | c :: cs =>
    if jsSpace c then
      match matchWsNl cs with
      | some r => some r
      | none => if c = '\n' then some cs else none
    else none

def matchHeaderAt (m s : List Char) : Option (List Char) :=
  (ciStrip ('#' :: '#' :: ' ' :: m) s).bind matchWsNl

def findHeader (m : List Char) : List Char → Option (List Char)
  | [] => none
  | c :: cs =>
    match matchHeaderAt m (c :: cs) with
    | some r => some r
    | none => findHeader m cs

def takeUntilHH : List Char → List Char
  | [] => []
  | [c] => [c]
  | a :: b :: cs =>
    if a = '#' && b = '#' then [] else a :: takeUntilHH (b :: cs)

/-- `extractSection` from `parseMSBTEContent` (index.ts lines 1959-1963). -/
def extractSection (content m : List Char) : List Char :=
  match findHeader m content with
  | some r => jsTrim (takeUntilHH r)
  | none => []

/-!
## `parseMSBTEContent` (index.ts lines 1939-2008)
-/

structure MSBTEAnnexure1 where
  aims : List Char
  courseOutcome : List (List Char)
  methodology : List Char
  deriving Repr, DecidableEq

structure MSBTEAnnexure2 where
  rationale : List Char
  aims : List (List Char)
  courseOutcome : List (List Char)
  literatureIntro : List Char
  literaturePoints : List (List Char)
  methodology : List Char
  skills : List (List Char)
  applications : List (List Char)
  deriving Repr, DecidableEq

structure MSBTEContent where
  annexure1 : MSBTEAnnexure1
  annexure2 : MSBTEAnnexure2
  deriving Repr, DecidableEq

def M_A1_AIMS : List Char := "ANNEXURE_I_AIMS".toList
def M_A1_CO : List Char := "ANNEXURE_I_COURSE_OUTCOME".toList
def M_A1_METH : List Char := "ANNEXURE_I_METHODOLOGY".toList
def M_A2_RAT : List Char := "ANNEXURE_II_RATIONALE".toList
def M_A2_AIMS : List Char := "ANNEXURE_II_AIMS".toList
def M_A2_CO : List Char := "ANNEXURE_II_COURSE_OUTCOME".toList
def M_A2_LIT : List Char := "ANNEXURE_II_LITERATURE".toList
def M_A2_METH : List Char := "ANNEXURE_II_METHODOLOGY".toList
def M_A2_SKILLS : List Char := "ANNEXURE_II_SKILLS".toList
def M_A2_APPS : List Char := "ANNEXURE_II_APPLICATIONS".toList

/-- `line.trim()` is truthy. -/
def trimTruthy (l : List Char) : Bool := !(jsTrim l).isEmpty

/-- `/^[a-z]\)/.test(line)`. -/
def lowerParen : List Char → Bool
  | a :: b :: _ => ('a' ≤ a && a ≤ 'z') && b = ')'
  | _ => false

/-- `.split('\n').filter(line => line.trim()).map(line => line.trim())`. -/
def trimmedLines (s : List Char) : List (List Char) :=
  ((splitNl s).filter trimTruthy).map jsTrim

/-- Filter used for `annexure2.aims`. -/
def aimsBullet (l : List Char) : Bool :=
  l.contains '•' || l.contains '-' || lowerParen l

/-- Filter used for `skills` and `applications`. -/
def dashBullet (l : List Char) : Bool := l.contains '•' || l.contains '-'

/-- Filter used for `literaturePoints`. -/
def litBullet (l : List Char) : Bool :=
  l.contains '•' || l.contains '-' || l.contains ':'

def parseMSBTEContent (content : List Char) : MSBTEContent :=
  let aims1 := extractSection content M_A1_AIMS
  let courseOutcome1 := extractSection content M_A1_CO
  let methodology1 := extractSection content M_A1_METH
  let rationale := extractSection content M_A2_RAT
  let aims2 := extractSection content M_A2_AIMS
  let courseOutcome2 := extractSection content M_A2_CO
  let literature := extractSection content M_A2_LIT
  let litLines := (splitNl literature).filter trimTruthy
  let methodology2 := extractSection content M_A2_METH
  let skills := extractSection content M_A2_SKILLS
  let apps := extractSection content M_A2_APPS
  { annexure1 :=
      { aims := aims1
        courseOutcome := trimmedLines courseOutcome1
        methodology := methodology1 }
    annexure2 :=
      { rationale := rationale
        aims := (((splitNl aims2).filter
            (fun l => trimTruthy l && aimsBullet l)).map jsTrim)
        courseOutcome := trimmedLines courseOutcome2
        literatureIntro := litLines.headD []
        literaturePoints := ((litLines.drop 1).filter litBullet).map jsTrim
        methodology := methodology2
        skills := (((splitNl skills).filter
            (fun l => trimTruthy l && dashBullet l)).map jsTrim)
        applications := (((splitNl apps).filter
            (fun l => trimTruthy l && dashBullet l)).map jsTrim) } }

/-!
## Stage-3 compliance analysis parsing (index.ts lines 1661-1743)

The structured analysis text is parsed with the anchored regular
expressions of the source: `/COMPLIANCE_SCORE: (\d+)/`,
`/IS_COMPLIANT: (true|false)/`, `/ISSUES: \[([^\]]+)\]/`,
`/RECOMMENDATIONS: \[([^\]]+)\]/`, `/QUALITY_SCORE: (\d+)/`, each
non-global, i.e. leftmost match.
-/

structure ComplianceCheck where
  isCompliant : Bool
  complianceScore : Nat
  issues : List (List Char)
  recommendations : List (List Char)
  qualityScore : Nat
  deriving Repr, DecidableEq

/-- `parseInt` on a digit string. -/
def digitsToNat (ds : List Char) : Nat :=
  ds.foldl (fun acc c => acc * 10 + (c.toNat - '0'.toNat)) 0

def matchLitDigitsAt (lit s : List Char) : Option Nat :=
  if lit.isPrefixOf s then
    let ds := (s.drop lit.length).takeWhile isDigitChar
    if ds.isEmpty then none else some (digitsToNat ds)
  else none

def scanLitDigits (lit : List Char) : List Char → Option Nat
  | [] => none
  | c :: cs =>
    match matchLitDigitsAt lit (c :: cs) with
    | some n => some n
    | none => scanLitDigits lit cs

def matchIsCompliantAt (s : List Char) : Option Bool :=
  if "IS_COMPLIANT: true".toList.isPrefixOf s then some true
  else if "IS_COMPLIANT: false".toList.isPrefixOf s then some false
  else none

def scanIsCompliant : List Char → Option Bool
  | [] => none
  | c :: cs =>
    match matchIsCompliantAt (c :: cs) with
    | some b => some b
    | none => scanIsCompliant cs

def matchBracketAt (lit s : List Char) : Option (List Char) :=
  if lit.isPrefixOf s then
    let r := s.drop lit.length
    let inner := r.takeWhile (fun c => !(c = ']'))
    if inner.isEmpty then none
    else
      match r.drop inner.length with
      | ']' :: _ => some inner
      | _ => none
  else none

def scanBracket (lit : List Char) : List Char → Option (List Char)
  | [] => none
  | c :: cs =>
    match matchBracketAt lit (c :: cs) with
    | some r => some r
    | none => scanBracket lit cs

/-- The parsing part of `checkMSBTECompliance` (lines 1714-1730), applied
to the analysis text of a successful stage-3 response. -/
def parseComplianceAnalysis (analysis : List Char) : ComplianceCheck :=
  let complianceScore := (scanLitDigits "COMPLIANCE_SCORE: ".toList analysis).getD 70
  let isCompliant := (scanIsCompliant analysis).getD false
  let issuesText := (scanBracket "ISSUES: [".toList analysis).getD []
  let recommendationsText := (scanBracket "RECOMMENDATIONS: [".toList analysis).getD []
  let qualityScore := (scanLitDigits "QUALITY_SCORE: ".toList analysis).getD 75
  { isCompliant := isCompliant
    complianceScore := complianceScore
    issues := ((splitComma issuesText).map jsTrim).filter (fun l => !l.isEmpty)
    recommendations :=
      ((splitComma recommendationsText).map jsTrim).filter (fun l => !l.isEmpty)
    qualityScore := qualityScore }

/-- The outcome of one `fetch` to the generation service: a thrown
transport error, or an HTTP response carrying a status and the model's
text (the JSON envelope around `choices[0].message.content` is elided). -/
inductive FetchOutcome where
  | networkError : FetchOutcome
  | response (status : Nat) (body : List Char) : FetchOutcome
  deriving Repr, DecidableEq

/-- `Response.ok`. -/
def responseOk (status : Nat) : Bool := 200 ≤ status && status ≤ 299

/-- The catch-branch fallback of `checkMSBTECompliance` (lines 1732-1742). -/
def defaultComplianceCheck : ComplianceCheck :=
  { isCompliant := false
    complianceScore := 70
    issues := ["Compliance check failed".toList]
    recommendations := ["Manual review required".toList]
    qualityScore := 75 }

/-- `checkMSBTECompliance` (lines 1661-1743): a non-2xx status throws
into the catch, as does a transport error; both produce the default. -/
def checkMSBTECompliance : FetchOutcome → ComplianceCheck
  | .networkError => defaultComplianceCheck
  | .response status body =>
    if responseOk status then parseComplianceAnalysis body
    else defaultComplianceCheck

/-!
## Stage-4 formatting (index.ts lines 1745-1821)

`enhanceFormatting` is `.replace(/^(.+)$/gm, m => m.startsWith('## ') ?
m + '\n' : m).replace(/\n{3,}/g, '\n\n')`; lines are modelled as the
`\n`-separated pieces (the generated content uses LF newlines).
`enhanceQuality` is `.replace(/\b(very|really|quite)\s+/g, '')` followed
by `.replace(/\b(good|nice|bad)\b/gi, ...)` with lowercase lookup.
-/

def markerLinePad (l : List Char) : List Char :=
  if ['#', '#', ' '].isPrefixOf l then l ++ ['\n'] else l

def addNlAfterMarkers (s : List Char) : List Char :=
  joinNl ((splitNl s).map markerLinePad)

/-- `/\n{3,}/g → "\n\n"`: drop a newline whenever at least two more
follow, i.e. replace each maximal run of `n ≥ 3` newlines by two. -/
def collapseNl : List Char → List Char
  | [] => []
  | c :: cs =>
    if c = '\n' ∧ cs.take 2 = ['\n', '\n'] then collapseNl cs
    else c :: collapseNl cs

def enhanceFormatting (s : List Char) : List Char :=
  collapseNl (addNlAfterMarkers s)

/-- `\s+` (at least one whitespace character, greedy). -/
def stripSpacesPlus : List Char → Option (List Char)
  | [] => none
  | c :: cs => if jsSpace c then some (cs.dropWhile jsSpace) else none

def tryWordSpaces (w s : List Char) : Option (List Char) :=
  if w.isPrefixOf s then stripSpacesPlus (s.drop w.length) else none

/-- `(very|really|quite)\s+` at the current position (case-sensitive,
alternatives in source order). -/
def tryAdverbAt (s : List Char) : Option (List Char) :=
  match tryWordSpaces "very".toList s with
  | some r => some r
  | none =>
    match tryWordSpaces "really".toList s with
    | some r => some r
    | none => tryWordSpaces "quite".toList s

/-- Global scan for `/\b(very|really|quite)\s+/g`; `prevWord` tracks
whether the previous input character is a word character (for `\b`).
The fuel starts at the input length; every step consumes at least one
character, so it never runs out. -/
def scrubAdverbsGo : Nat → Bool → List Char → List Char
  | 0, _, s => s
  | _ + 1, _, [] => []
  | fuel + 1, prevWord, c :: cs =>
    if prevWord then c :: scrubAdverbsGo fuel (isWordChar c) cs
    else
      match tryAdverbAt (c :: cs) with
      | some rest => scrubAdverbsGo fuel false rest
      | none => c :: scrubAdverbsGo fuel (isWordChar c) cs

def scrubAdverbs (s : List Char) : List Char := scrubAdverbsGo s.length false s

/-- One adjective alternative with its replacement: case-insensitive
match plus the trailing `\b`. -/
def tryAdjWord (w rep s : List Char) : Option (List Char × List Char) :=
  match ciStrip w s with
  | some rest =>
    match rest with
    | [] => some (rep, [])
    | d :: _ => if isWordChar d then none else some (rep, rest)
  | none => none

def tryAdjectiveAt (s : List Char) : Option (List Char × List Char) :=
  match tryAdjWord "good".toList "effective".toList s with
  | some r => some r
  | none =>
    match tryAdjWord "nice".toList "appropriate".toList s with
    | some r => some r
    | none => tryAdjWord "bad".toList "inadequate".toList s

def substAdjGo : Nat → Bool → List Char → List Char
  | 0, _, s => s
  | _ + 1, _, [] => []
  | fuel + 1, prevWord, c :: cs =>
    if prevWord then c :: substAdjGo fuel (isWordChar c) cs
    else
      match tryAdjectiveAt (c :: cs) with
      | some (rep, rest) => rep ++ substAdjGo fuel true rest
      | none => c :: substAdjGo fuel (isWordChar c) cs

def substAdjectives (s : List Char) : List Char := substAdjGo s.length false s

def enhanceQuality (s : List Char) : List Char :=
  substAdjectives (scrubAdverbs s)

/-- `applyFinalFormatting` (lines 1745-1762). -/
def applyFinalFormatting (content : List Char)
    (complianceCheck : ComplianceCheck) : List Char :=
  let afterFormatting :=
    if complianceCheck.complianceScore < 80 then enhanceFormatting content
    else content
  if complianceCheck.qualityScore < 85 then enhanceQuality afterFormatting
  else afterFormatting

/-!
## Quality metrics and stage 1 (index.ts lines 1490-1591, 1764-1793)

`Math.round` on a non-negative JS number is modelled as rounding of the
exact rational (`⌊q + 1/2⌋`); the bounds proved below do not depend on
double-precision rounding error.
-/

structure DocumentSection where
  title : List Char
  level : Int
  fontSize : Int
  deriving Repr, DecidableEq

structure DocumentStructure where
  sections : List DocumentSection
  defaultFontSize : Int
  hasTableOfContents : Bool
  deriving Repr, DecidableEq

/-- `{text, structure}` as produced by the extractors; the field
`structure` is a Lean keyword and is spelled `struct` here. -/
structure ExtractedData where
  text : List Char
  struct : DocumentStructure
  deriving Repr, DecidableEq

structure QualityMetrics where
  technicalDepth : Int
  academicQuality : Int
  completeness : Int
  relevance : Int
  deriving Repr, DecidableEq

def jsRound (q : ℚ) : Int := ⌊q + 1 / 2⌋

/-- `content.split(/\s+/)`: the pieces between maximal whitespace runs,
with an empty leading (trailing) piece when the string starts (ends)
with whitespace, and `[""]` for the empty string. -/
def jsSplitWs : List Char → List (List Char)
  | [] => [[]]
  | c :: cs =>
    let r := jsSplitWs cs
    if jsSpace c then
      match cs with
      | d :: _ => if jsSpace d then r else [] :: r
      | [] => [] :: r
    else
      match r with
      | [] => [[c]]
      | l :: ls => (c :: l) :: ls

def techWords : List (List Char) :=
  ["technical".toList, "engineering".toList, "implementation".toList,
   "methodology".toList, "algorithm".toList, "system".toList,
   "design".toList, "development".toList, "analysis".toList]

def tryTechWordAt (w s : List Char) : Option Nat :=
  match ciStrip w s with
  | some rest =>
    match rest with
    | [] => some w.length
    | d :: _ => if isWordChar d then none else some w.length
  | none => none

def tryTechAt (s : List Char) : Option Nat :=
  techWords.findSome? (fun w => tryTechWordAt w s)

/-- Count of `/\b(technical|…|analysis)\b/gi` matches. -/
def countTechGo : Nat → Bool → List Char → Nat
  | 0, _, _ => 0
  | _ + 1, _, [] => 0
  | fuel + 1, prevWord, c :: cs =>
    if prevWord then countTechGo fuel (isWordChar c) cs
    else
      match tryTechAt (c :: cs) with
      | some n => 1 + countTechGo fuel true ((c :: cs).drop n)
      | none => countTechGo fuel (isWordChar c) cs

def countTechTerms (s : List Char) : Nat := countTechGo s.length false s

/-- Count of `/## \w+/g` matches. -/
def countMarkersGo : Nat → List Char → Nat
  | 0, _ => 0
  | _ + 1, [] => 0
  | fuel + 1, c :: cs =>
    if ['#', '#', ' '].isPrefixOf (c :: cs) then
      match (c :: cs).drop 3 with
      | d :: rest =>
        if isWordChar d then 1 + countMarkersGo fuel (rest.dropWhile isWordChar)
        else countMarkersGo fuel cs
      | [] => countMarkersGo fuel cs
    else countMarkersGo fuel cs

def countSectionMarkers (s : List Char) : Nat := countMarkersGo s.length s

/-- `calculateInitialQualityMetrics` (lines 1764-1775). -/
def calculateInitialQualityMetrics (content : List Char)
    (extractedData : ExtractedData) : QualityMetrics :=
  let wordCount := (jsSplitWs content).length
  let sectionCount := countSectionMarkers content
  let technicalTerms := countTechTerms content
  { technicalDepth := min 100 (jsRound ((technicalTerms : ℚ) / (wordCount : ℚ) * 1000))
    academicQuality := min 100 (jsRound ((wordCount : ℚ) / 1000 * 100))
    completeness := min 100 (jsRound ((sectionCount : ℚ) / 10 * 100))
    relevance := if extractedData.struct.sections.length > 0 then 85 else 70 }

/-- `/## ANNEXURE_\w+/` test. -/
def hasAnnexureMarker : List Char → Bool
  | [] => false
  | c :: cs =>
    ("## ANNEXURE_".toList.isPrefixOf (c :: cs) &&
      (match (c :: cs).drop 12 with
       | d :: _ => isWordChar d
       | [] => false)) ||
    hasAnnexureMarker cs

/-- `generateInitialSuggestions` (lines 1777-1793); the `studentData`
parameter of the source is unused by its body and omitted. -/
def generateInitialSuggestions (content : List Char) : List (List Char) :=
  (if content.length < 2000 then
    ["Content appears too brief - consider adding more technical details".toList]
   else []) ++
  (if !containsSub "2023".toList content && !containsSub "2024".toList content then
    ["Include recent industry standards and practices (2023-2024)".toList]
   else []) ++
  (if !hasAnnexureMarker content then
    ["Ensure all required MSBTE sections are properly formatted".toList]
   else [])

structure AIProcessingResult where
  content : List Char
  qualityMetrics : QualityMetrics
  suggestions : List (List Char)
  deriving Repr, DecidableEq

/-- `processWithEnhancedAI` (lines 1490-1591): any non-2xx status or
transport error is rethrown by the catch as the generic message. -/
def processWithEnhancedAI (fetchResult : FetchOutcome)
    (extractedData : ExtractedData) : Except (List Char) AIProcessingResult :=
  match fetchResult with
  | .networkError => .error "Failed to process content with enhanced AI".toList
  | .response status body =>
    if responseOk status then
      .ok { content := body
            qualityMetrics := calculateInitialQualityMetrics body extractedData
            suggestions := generateInitialSuggestions body }
    else .error "Failed to process content with enhanced AI".toList

/-- `validateAndEnhanceContent` (lines 1593-1659): the enhanced text on
success, the stage-1 text when the call fails. -/
def validateAndEnhanceContent (result : AIProcessingResult)
    (fetchResult : FetchOutcome) : List Char :=
  match fetchResult with
  | .networkError => result.content
  | .response status body =>
    if responseOk status then body else result.content

/-- Stages 2-4 as chained in the handler (lines 1094-1100). -/
def pipelineFinalText (stage1 : AIProcessingResult)
    (fetch2 fetch3 : FetchOutcome) : List Char :=
  applyFinalFormatting (validateAndEnhanceContent stage1 fetch2)
    (checkMSBTECompliance fetch3)

/-!
## The request handler (index.ts lines 1059-1449)
-/

structure StudentData where
  name : List Char
  rollNumber : List Char
  enrollmentNumber : List Char
  college : List Char
  topic : List Char
  deriving Repr, DecidableEq

/-- `topic.replace(/\s+/g, '_')`: each maximal whitespace run becomes a
single underscore. -/
def replaceWsRuns : List Char → List Char
  | [] => []
  | c :: cs =>
    if jsSpace c then
      match cs with
      | d :: _ => if jsSpace d then replaceWsRuns cs else '_' :: replaceWsRuns cs
      | [] => ['_']
    else c :: replaceWsRuns cs

/-- The quality-metrics object of the 200 response (lines 1415-1422). -/
structure ResponseQualityMetrics where
  technicalDepth : Int
  academicQuality : Int
  completeness : Int
  relevance : Int
  complianceScore : Nat
  overallScore : Nat
  deriving Repr, DecidableEq

/-- The JSON response of the handler.  `document` stands for the base64
docx: the parsed sections that the assembler serialises (the docx
library itself is external).  The error path modelled is the one the
claims cite: a stage-1 failure caught at lines 1436-1448. -/
structure ServeResponse where
  status : Nat
  success : Bool
  error : Option (List Char)
  fileName : Option (List Char)
  document : Option MSBTEContent
  complianceInfo : Option ComplianceCheck
  qualityMetrics : Option ResponseQualityMetrics
  deriving Repr, DecidableEq

/-- The handler body after file extraction (lines 1090-1448), as a
function of the three generation-service outcomes. -/
def serveGenerate (studentData : StudentData) (extractedData : ExtractedData)
    (fetch1 fetch2 fetch3 : FetchOutcome) : ServeResponse :=
  match processWithEnhancedAI fetch1 extractedData with
  | .error msg =>
    { status := 500, success := false, error := some msg, fileName := none,
      document := none, complianceInfo := none, qualityMetrics := none }
  | .ok aiProcessingResult =>
    let validatedContent := validateAndEnhanceContent aiProcessingResult fetch2
    let complianceCheck := checkMSBTECompliance fetch3
    let finalContent := applyFinalFormatting validatedContent complianceCheck
    let msbteContent := parseMSBTEContent finalContent
    { status := 200
      success := true
      error := none
      fileName :=
        some ("AI_Project_".toList ++ replaceWsRuns studentData.topic ++ ".docx".toList)
      document := some msbteContent
      complianceInfo := some complianceCheck
      qualityMetrics := some
        { technicalDepth := aiProcessingResult.qualityMetrics.technicalDepth
          academicQuality := aiProcessingResult.qualityMetrics.academicQuality
          completeness := aiProcessingResult.qualityMetrics.completeness
          relevance := aiProcessingResult.qualityMetrics.relevance
          complianceScore := complianceCheck.complianceScore
          overallScore := complianceCheck.qualityScore } }

/-!
## File text extraction (index.ts lines 1824-1919)

The extractors receive the `atob`-decoded byte string (a valid base64
payload decodes without throwing; any decoded byte string arises from
some valid payload, so quantifying over decoded content is equivalent).
Scanners that skip past a whole match use a fuel argument initialised to
the input length; every step consumes at least one character.
-/

/-- The regex class `[A-Za-z0-9\s.,;:!?()-]`. -/
def pdfAllowed (c : Char) : Bool :=
  ('A' ≤ c && c ≤ 'Z') || ('a' ≤ c && c ≤ 'z') || ('0' ≤ c && c ≤ '9') ||
  jsSpace c || c = '.' || c = ',' || c = ';' || c = ':' || c = '!' || c = '?' ||
  c = '(' || c = ')' || c = '-'

/-- The maximal runs matched by `/[A-Za-z0-9\s.,;:!?()-]+/g`. -/
def allowedRuns : List Char → List (List Char)
  | [] => []
  | c :: cs =>
    let r := allowedRuns cs
    if pdfAllowed c then
      match cs with
      | d :: _ =>
        if pdfAllowed d then
          match r with
          | run :: runs => (c :: run) :: runs
          | [] => [[c]]
        else [c] :: r
      | [] => [[c]]
    else r

/-- `/^\d+\.?\s/.test` (level heuristic). -/
def numPrefixTest (t : List Char) : Bool :=
  let ds := t.takeWhile isDigitChar
  !ds.isEmpty &&
    (match t.drop ds.length with
     | '.' :: e :: _ => jsSpace e
     | '.' :: [] => false
     | e :: _ => jsSpace e
     | [] => false)

/-- `/^\d+\.?\s+[A-Z]/.test` (heading heuristic). -/
def numHeadTest (t : List Char) : Bool :=
  let ds := t.takeWhile isDigitChar
  if ds.isEmpty then false
  else
    let r := t.drop ds.length
    let r2 := match r with
      | '.' :: rest => rest
      | rest => rest
    let ws := r2.takeWhile jsSpace
    !ws.isEmpty &&
      (match r2.drop ws.length with
       | e :: _ => 'A' ≤ e && e ≤ 'Z'
       | [] => false)

/-- `extractFromPDF` (lines 1824-1855). -/
def extractFromPDF (decodedContent : List Char) : ExtractedData :=
  let runs := allowedRuns decodedContent
  let text :=
    if runs.isEmpty then "No text extracted from PDF".toList
    else (joinSpace runs).take 10000
  let sections := (splitNl text).filterMap (fun line =>
    let trimmed := jsTrim line
    if 0 < trimmed.length ∧ trimmed.length < 100 ∧
        (trimmed = trimmed.map upperAscii ∨ numHeadTest trimmed = true) then
      some { title := trimmed
             level := if numPrefixTest trimmed then (1 : Int) else 2
             fontSize := 28 }
    else none)
  { text := text
    struct :=
      { sections := sections
        defaultFontSize := 24
        hasTableOfContents :=
          containsSub "table of contents".toList (text.map lowerAscii) ||
          containsSub "contents".toList (text.map lowerAscii) } }

/-- One match of `openTag[^>]*>([^<]+)closeTag` at the current position:
returns the attribute run, the captured inner text and the remainder. -/
def matchTagTextAt (openTag closeTag s : List Char) :
    Option (List Char × List Char × List Char) :=
  if openTag.isPrefixOf s then
    let r1 := s.drop openTag.length
    let attrs := r1.takeWhile (fun c => !(c = '>'))
    match r1.drop attrs.length with
    | '>' :: r2 =>
      let inner := r2.takeWhile (fun c => !(c = '<'))
      if inner.isEmpty then none
      else if closeTag.isPrefixOf (r2.drop inner.length) then
        some (attrs, inner, (r2.drop inner.length).drop closeTag.length)
      else none
    | _ => none
  else none

/-- The source text of a tag match (for the `.replace(/<[^>]+>/g, '')`
applied to each full match). -/
def tagFullMatch (openTag closeTag attrs inner : List Char) : List Char :=
  openTag ++ attrs ++ '>' :: (inner ++ closeTag)

def scanTagGo (openTag closeTag : List Char) :
    Nat → List Char → List (List Char × List Char)
  | 0, _ => []
  | _ + 1, [] => []
  | fuel + 1, c :: cs =>
    match matchTagTextAt openTag closeTag (c :: cs) with
    | some (attrs, inner, rest) =>
      (attrs, inner) :: scanTagGo openTag closeTag fuel rest
    | none => scanTagGo openTag closeTag fuel cs

/-- All matches of `/openTag[^>]*>([^<]+)closeTag/g`. -/
def scanTagAll (openTag closeTag s : List Char) : List (List Char × List Char) :=
  scanTagGo openTag closeTag s.length s

/-- `/<[^>]+>/g → ''`. -/
def stripTagsGo : Nat → List Char → List Char
  | 0, s => s
  | _ + 1, [] => []
  | fuel + 1, c :: cs =>
    if c = '<' then
      let inner := cs.takeWhile (fun d => !(d = '>'))
      if inner.isEmpty then c :: stripTagsGo fuel cs
      else
        match cs.drop inner.length with
        | '>' :: r2 => stripTagsGo fuel r2
        | _ => c :: stripTagsGo fuel cs
    else c :: stripTagsGo fuel cs

def stripTags (s : List Char) : List Char := stripTagsGo s.length s

/-- The lazy `.*?` of the heading regexes: the first tag-text match at or
after the current position. -/
def scanFirstWT (openTag closeTag : List Char) : List Char → Option (List Char × List Char)
  | [] => none
  | c :: cs =>
    match matchTagTextAt openTag closeTag (c :: cs) with
    | some (_, inner, rest) => some (inner, rest)
    | none => scanFirstWT openTag closeTag cs

/-- One match of
`/<w:pStyle w:val="(Heading\d+)"[^>]*>.*?<w:t[^>]*>([^<]+)<\/w:t>/gs`. -/
def matchHeadingAt (s : List Char) : Option (DocumentSection × List Char) :=
  if "<w:pStyle w:val=\"Heading".toList.isPrefixOf s then
    let r := s.drop 24
    let ds := r.takeWhile isDigitChar
    if ds.isEmpty then none
    else
      match r.drop ds.length with
      | '"' :: r2 =>
        let attrs := r2.takeWhile (fun c => !(c = '>'))
        match r2.drop attrs.length with
        | '>' :: r3 =>
          match scanFirstWT "<w:t".toList "</w:t>".toList r3 with
          | some (title, rest) =>
            some ({ title := title
                    level := (digitsToNat ds : Int)
                    fontSize := 32 - (digitsToNat ds : Int) * 4 }, rest)
          | none => none
        | _ => none
      | _ => none
  else none

def scanHeadingsGo : Nat → List Char → List DocumentSection
  | 0, _ => []
  | _ + 1, [] => []
  | fuel + 1, c :: cs =>
    match matchHeadingAt (c :: cs) with
    | some (sec, rest) => sec :: scanHeadingsGo fuel rest
    | none => scanHeadingsGo fuel cs

def scanDocxHeadings (s : List Char) : List DocumentSection :=
  scanHeadingsGo s.length s

/-- One match of `/<w:sz w:val="(\d+)"\/>/g` (the value is the digit run,
as recovered by `parseInt(f.match(/\d+/)?.[0] || '24')`). -/
def matchFontSizeAt (s : List Char) : Option (Nat × List Char) :=
  if "<w:sz w:val=\"".toList.isPrefixOf s then
    let r := s.drop 13
    let ds := r.takeWhile isDigitChar
    if ds.isEmpty then none
    else if "\"/>".toList.isPrefixOf (r.drop ds.length) then
      some (digitsToNat ds, (r.drop ds.length).drop 3)
    else none
  else none

def scanFontSizesGo : Nat → List Char → List Nat
  | 0, _ => []
  | _ + 1, [] => []
  | fuel + 1, c :: cs =>
    match matchFontSizeAt (c :: cs) with
    | some (n, rest) => n :: scanFontSizesGo fuel rest
    | none => scanFontSizesGo fuel cs

def scanFontSizes (s : List Char) : List Nat := scanFontSizesGo s.length s

/-- `extractFromDOCX` (lines 1857-1892). -/
def extractFromDOCX (decodedContent : List Char) : ExtractedData :=
  let textMatch := scanTagAll "<w:t".toList "</w:t>".toList decodedContent
  let text :=
    if textMatch.isEmpty then "No text extracted".toList
    else (joinSpace (textMatch.map (fun m =>
      stripTags (tagFullMatch "<w:t".toList "</w:t>".toList m.1 m.2)))).take 10000
  let fontSizes := scanFontSizes decodedContent
  let avgFontSize :=
    if fontSizes.isEmpty then (24 : Int)
    else jsRound (((fontSizes.foldl (· + ·) 0 : Nat) : ℚ) / (fontSizes.length : ℚ))
  { text := text
    struct :=
      { sections := scanDocxHeadings decodedContent
        defaultFontSize := avgFontSize
        hasTableOfContents :=
          containsSub "TOC".toList decodedContent ||
          containsSub "table of contents".toList (text.map lowerAscii) } }

/-- One match of
`/<p:ph type="title"[^>]*>.*?<a:t[^>]*>([^<]+)<\/a:t>/gs`. -/
def matchSlideTitleAt (s : List Char) : Option (DocumentSection × List Char) :=
  if "<p:ph type=\"title\"".toList.isPrefixOf s then
    let r := s.drop 18
    let attrs := r.takeWhile (fun c => !(c = '>'))
    match r.drop attrs.length with
    | '>' :: r2 =>
      match scanFirstWT "<a:t".toList "</a:t>".toList r2 with
      | some (title, rest) =>
        some ({ title := title, level := 1, fontSize := 32 }, rest)
      | none => none
    | _ => none
  else none

def scanSlideTitlesGo : Nat → List Char → List DocumentSection
  | 0, _ => []
  | _ + 1, [] => []
  | fuel + 1, c :: cs =>
    match matchSlideTitleAt (c :: cs) with
    | some (sec, rest) => sec :: scanSlideTitlesGo fuel rest
    | none => scanSlideTitlesGo fuel cs

def scanSlideTitles (s : List Char) : List DocumentSection :=
  scanSlideTitlesGo s.length s

/-- `extractFromPPTX` (lines 1894-1919). -/
def extractFromPPTX (decodedContent : List Char) : ExtractedData :=
  let textMatch := scanTagAll "<a:t".toList "</a:t>".toList decodedContent
  let text :=
    if textMatch.isEmpty then "No text extracted".toList
    else (joinSpace (textMatch.map (fun m =>
      stripTags (tagFullMatch "<a:t".toList "</a:t>".toList m.1 m.2)))).take 10000
  { text := text
    struct :=
      { sections := scanSlideTitles decodedContent
        defaultFontSize := 24
        hasTableOfContents := false } }

/-!
## Well-formed generated text (for the round-trip property)

`buildBlocks` assembles the grammar the prompt demands: each section is
`## MARKER` on its own line followed by its content and a newline.
-/

def buildBlocks : List (List Char × List Char) → List Char
  | [] => []
  | (m, c) :: rest => '#' :: '#' :: ' ' :: (m ++ '\n' :: (c ++ '\n' :: buildBlocks rest))

/-- Well-formed section text: non-empty, contains no `#`, and neither
starts nor ends with whitespace. -/
def goodText (c : List Char) : Bool :=
  !c.isEmpty && noHash c && !jsSpace (c.headD ' ') && !jsSpace (lastD c ' ')

/-- A well-formed bullet/content line: well-formed text on one line. -/
def goodLine (l : List Char) : Bool := goodText l && !l.contains '\n'

def goodLines (ls : List (List Char)) : Bool := !ls.isEmpty && ls.all goodLine

/-- A generated text containing all ten markers, with the given content
inserted between each marker and the next (list-valued sections as
newline-separated lines). -/
def buildMSBTEText (aims1 : List Char) (courseOutcome1 : List (List Char))
    (methodology1 rationale : List Char) (aims2 courseOutcome2 : List (List Char))
    (literatureIntro : List Char) (literaturePoints : List (List Char))
    (methodology2 : List Char) (skills applications : List (List Char)) : List Char :=
  buildBlocks
    [(M_A1_AIMS, aims1),
     (M_A1_CO, joinNl courseOutcome1),
     (M_A1_METH, methodology1),
     (M_A2_RAT, rationale),
     (M_A2_AIMS, joinNl aims2),
     (M_A2_CO, joinNl courseOutcome2),
     (M_A2_LIT, joinNl (literatureIntro :: literaturePoints)),
     (M_A2_METH, methodology2),
     (M_A2_SKILLS, joinNl skills),
     (M_A2_APPS, joinNl applications)]


/-!
## Lemmas about the section extractor
-/

theorem char_toNat_ofNat {n : Nat} (h : n.isValidChar) : (Char.ofNat n).toNat = n := by
  unfold Char.ofNat
  rw [dif_pos h]
  rfl

theorem char_le_toNat {a b : Char} (h : a ≤ b) : a.toNat ≤ b.toNat := h

/-- `lowerAscii` can only produce a character below `'a'` by fixing it. -/
theorem lowerAscii_eq_low {c : Char} (d : Char) (hd : d.toNat < 97)
    (h : lowerAscii c = d) : c = d := by
  unfold lowerAscii at h
  split at h
  · exfalso
    rename_i hr
    have h65 : 65 ≤ c.toNat := char_le_toNat hr.1
    have h90 : c.toNat ≤ 90 := char_le_toNat hr.2
    have hv : (c.toNat + 32).isValidChar := by
      left
      omega
    have ht : (Char.ofNat (c.toNat + 32)).toNat = c.toNat + 32 := char_toNat_ofNat hv
    rw [h] at ht
    omega
  · exact h

theorem ciEq_self (c : Char) : ciEq c c = true := by
  simp [ciEq]

theorem ciStrip_self_append (m t : List Char) : ciStrip m (m ++ t) = some t := by
  induction m with
  | nil => rfl
  | cons c cs ih => simp [ciStrip, ciEq_self, ih]

theorem ciEq_hash_eq_false {c : Char} (hc : ¬ c = '#') : ciEq '#' c = false := by
  cases h1 : ciEq '#' c with
  | false => rfl
  | true =>
    exfalso
    have h2 : lowerAscii '#' = lowerAscii c := by simpa [ciEq] using h1
    have h3 : lowerAscii c = '#' := by rw [← h2]; decide
    exact hc (lowerAscii_eq_low '#' (by decide) h3)

theorem matchHeaderAt_cons_ne_hash (m : List Char) {c : Char} (hc : ¬ c = '#')
    (s : List Char) : matchHeaderAt m (c :: s) = none := by
  simp [matchHeaderAt, ciStrip, ciEq_hash_eq_false hc]

theorem findHeader_cons_none {m : List Char} {c : Char} {cs : List Char}
    (h : matchHeaderAt m (c :: cs) = none) :
    findHeader m (c :: cs) = findHeader m cs := by
  simp [findHeader, h]

theorem findHeader_cons_some {m : List Char} {c : Char} {cs r : List Char}
    (h : matchHeaderAt m (c :: cs) = some r) :
    findHeader m (c :: cs) = some r := by
  simp [findHeader, h]

theorem findHeader_append_no_hash (m : List Char) {A : List Char} (B : List Char)
    (hA : ∀ c ∈ A, ¬ c = '#') : findHeader m (A ++ B) = findHeader m B := by
  induction A with
  | nil => rfl
  | cons a A ih =>
    have ha : ¬ a = '#' := hA a (List.mem_cons_self a A)
    rw [List.cons_append,
      findHeader_cons_none (matchHeaderAt_cons_ne_hash m ha (A ++ B))]
    exact ih (fun c hc => hA c (List.mem_cons_of_mem a hc))

theorem markerChars_ciEq :
    ∀ a ∈ markerChars, ∀ b ∈ markerChars, ciEq a b = true → a = b := by decide

theorem markerChars_not_space : ∀ a ∈ markerChars, jsSpace a = false := by decide

theorem markerChars_ne_hash : ∀ a ∈ markerChars, ¬ a = '#' := by decide

theorem markerChars_ciEq_nl : ∀ a ∈ markerChars, ciEq a '\n' = false := by decide

theorem matchWsNl_cons_not_space {d : Char} (hd : jsSpace d = false) (t : List Char) :
    matchWsNl (d :: t) = none := by
  simp [matchWsNl, hd]

theorem matchWsNl_nl_cons (x : List Char) (hx : matchWsNl x = none) :
    matchWsNl ('\n' :: x) = some x := by
  simp [matchWsNl, hx, (by decide : jsSpace '\n' = true)]

theorem matchHeaderAt_hit (m : List Char) {d : Char} (hd : jsSpace d = false)
    (y : List Char) :
    matchHeaderAt m ('#' :: '#' :: ' ' :: (m ++ '\n' :: d :: y)) = some (d :: y) := by
  have h1 : ciStrip ('#' :: '#' :: ' ' :: m)
      ('#' :: '#' :: ' ' :: (m ++ '\n' :: d :: y)) = some ('\n' :: d :: y) := by
    simp [ciStrip, ciEq_self, ciStrip_self_append]
  simp [matchHeaderAt, h1,
    matchWsNl_nl_cons (d :: y) (matchWsNl_cons_not_space hd y)]

theorem findHeader_hit (m : List Char) {d : Char} (hd : jsSpace d = false)
    (y : List Char) :
    findHeader m ('#' :: '#' :: ' ' :: (m ++ '\n' :: d :: y)) = some (d :: y) :=
  findHeader_cons_some (matchHeaderAt_hit m hd y)

theorem ciStrip_mismatch_bind : ∀ m m' rest : List Char,
    (∀ c ∈ m, c ∈ markerChars) → (∀ c ∈ m', c ∈ markerChars) → ¬ m = m' →
    (ciStrip m (m' ++ '\n' :: rest)).bind matchWsNl = none := by
  intro m
  induction m with
  | nil =>
    intro m' rest _ hm' hne
    cases m' with
    | nil => exact absurd rfl hne
    | cons b bs =>
      have hb : jsSpace b = false :=
        markerChars_not_space b (hm' b (List.mem_cons_self b bs))
      simp [ciStrip, matchWsNl_cons_not_space hb]
  | cons a as ih =>
    intro m' rest hm hm' hne
    cases m' with
    | nil =>
      have ha : ciEq a '\n' = false :=
        markerChars_ciEq_nl a (hm a (List.mem_cons_self a as))
      simp [ciStrip, ha]
    | cons b bs =>
      by_cases hab : ciEq a b = true
      · have hmem_a := hm a (List.mem_cons_self a as)
        have hmem_b := hm' b (List.mem_cons_self b bs)
        have hab' : a = b := markerChars_ciEq a hmem_a b hmem_b hab
        subst hab'
        have hne' : ¬ as = bs := fun h => hne (by rw [h])
        simp only [List.cons_append, ciStrip, ciEq_self, if_true]
        exact ih bs rest (fun c hc => hm c (List.mem_cons_of_mem a hc))
          (fun c hc => hm' c (List.mem_cons_of_mem a hc)) hne'
      · have hab2 : ciEq a b = false := by
          revert hab; cases (ciEq a b) <;> simp
        simp [ciStrip, hab2]

theorem findHeader_skip_block (m m' C T : List Char)
    (hm : ∀ c ∈ m, c ∈ markerChars) (hm' : ∀ c ∈ m', c ∈ markerChars)
    (hne : ¬ m = m') (hC : ∀ x ∈ C, ¬ x = '#') :
    findHeader m ('#' :: '#' :: ' ' :: (m' ++ '\n' :: (C ++ '\n' :: T))) =
      findHeader m T := by
  have h0 : matchHeaderAt m ('#' :: '#' :: ' ' :: (m' ++ '\n' :: (C ++ '\n' :: T))) =
      none := by
    have hmm := ciStrip_mismatch_bind m m' (C ++ '\n' :: T) hm hm' hne
    simpa [matchHeaderAt, ciStrip, ciEq_self] using hmm
  have h1 : matchHeaderAt m ('#' :: ' ' :: (m' ++ '\n' :: (C ++ '\n' :: T))) =
      none := by
    simp [matchHeaderAt, ciStrip, ciEq_self, (by decide : ciEq '#' ' ' = false)]
  have h2 : (' ' :: (m' ++ '\n' :: (C ++ '\n' :: T))) =
      (' ' :: (m' ++ '\n' :: (C ++ ['\n']))) ++ T := by
    simp [List.append_assoc]
  have h3 : ∀ c ∈ (' ' :: (m' ++ '\n' :: (C ++ ['\n']))), ¬ c = '#' := by
    intro c hc
    simp only [List.mem_cons, List.mem_append, List.mem_singleton] at hc
    rcases hc with h | h
    · subst h; decide
    rcases h with h | h
    · exact markerChars_ne_hash c (hm' c h)
    rcases h with h | h
    · subst h; decide
    rcases h with h | h
    · exact hC c h
    rcases h with h | h
    · subst h; decide
    · exact absurd h (List.not_mem_nil c)
  rw [findHeader_cons_none h0, findHeader_cons_none h1, h2,
    findHeader_append_no_hash m T h3]

theorem takeUntilHH_append : ∀ A z : List Char, (∀ c ∈ A, ¬ c = '#') →
    takeUntilHH (A ++ '#' :: '#' :: z) = A := by
  intro A
  induction A with
  | nil => intro z _; simp [takeUntilHH]
  | cons a A ih =>
    intro z hA
    have ha : ¬ a = '#' := hA a (List.mem_cons_self a A)
    cases A with
    | nil => simp [takeUntilHH, ha]
    | cons b B =>
      have h2 := ih z (fun c hc => hA c (List.mem_cons_of_mem a hc))
      simp only [List.cons_append] at h2 ⊢
      simp [takeUntilHH, ha, h2]

theorem takeUntilHH_no_hash : ∀ A : List Char, (∀ c ∈ A, ¬ c = '#') →
    takeUntilHH A = A := by
  intro A
  induction A with
  | nil => intro _; rfl
  | cons a A ih =>
    intro hA
    have ha : ¬ a = '#' := hA a (List.mem_cons_self a A)
    cases A with
    | nil => rfl
    | cons b B =>
      have h2 := ih (fun c hc => hA c (List.mem_cons_of_mem a hc))
      simp [takeUntilHH, ha, h2]

theorem takeUntilHH_capture (C : List Char) (post : List (List Char × List Char))
    (hC : ∀ x ∈ C, ¬ x = '#') :
    takeUntilHH (C ++ '\n' :: buildBlocks post) = C ++ ['\n'] := by
  have hCnl : ∀ x ∈ C ++ ['\n'], ¬ x = '#' := by
    intro x hx
    rcases List.mem_append.1 hx with h | h
    · exact hC x h
    · rcases List.mem_singleton.1 h with rfl; decide
  cases post with
  | nil =>
    have h1 : C ++ '\n' :: buildBlocks [] = C ++ ['\n'] := by simp [buildBlocks]
    rw [h1]
    exact takeUntilHH_no_hash (C ++ ['\n']) hCnl
  | cons p rest =>
    obtain ⟨m', c'⟩ := p
    have h1 : C ++ '\n' :: buildBlocks ((m', c') :: rest) =
        (C ++ ['\n']) ++ '#' :: '#' ::
          (' ' :: (m' ++ '\n' :: (c' ++ '\n' :: buildBlocks rest))) := by
      simp [buildBlocks]
    rw [h1]
    exact takeUntilHH_append (C ++ ['\n']) _ hCnl

theorem trimRight_append_space (A : List Char) {x : Char} (hx : jsSpace x = true) :
    trimRight (A ++ [x]) = trimRight A := by
  induction A with
  | nil => simp [trimRight, hx]
  | cons a A ih => simp [trimRight, ih]

theorem trimRight_cons (c : Char) (cs : List Char) :
    trimRight (c :: cs) =
      if (trimRight cs).isEmpty && jsSpace c then [] else c :: trimRight cs := rfl

theorem trimRight_eq_self : ∀ A : List Char, A ≠ [] → jsSpace (lastD A ' ') = false →
    trimRight A = A := by
  intro A
  induction A with
  | nil => intro h _; exact absurd rfl h
  | cons a A ih =>
    intro _ hlast
    cases A with
    | nil =>
      simp only [lastD] at hlast
      rw [trimRight_cons]
      simp [trimRight, hlast]
    | cons b B =>
      have h2 : trimRight (b :: B) = b :: B :=
        ih (by simp) (by simpa [lastD] using hlast)
      rw [trimRight_cons, h2]
      simp

theorem dropWhile_not_space {a : Char} (ha : jsSpace a = false) (t : List Char) :
    (a :: t).dropWhile jsSpace = a :: t := by
  simp [List.dropWhile_cons, ha]

theorem goodText_parts {C : List Char} (h : goodText C = true) :
    (∃ d y, C = d :: y ∧ jsSpace d = false) ∧ (∀ x ∈ C, ¬ x = '#') ∧
      jsSpace (lastD C ' ') = false := by
  unfold goodText noHash at h
  simp only [Bool.and_eq_true, Bool.not_eq_true', List.all_eq_true] at h
  obtain ⟨⟨⟨hne, hhash⟩, hhead⟩, hlast⟩ := h
  cases C with
  | nil => simp at hne
  | cons d y =>
    refine ⟨⟨d, y, rfl, by simpa using hhead⟩, ?_, hlast⟩
    intro x hx
    have := hhash x hx
    simpa using this

theorem jsTrim_append_nl {C : List Char} (h : goodText C = true) :
    jsTrim (C ++ ['\n']) = C := by
  obtain ⟨⟨d, y, rfl, hd⟩, hhash, hlast⟩ := goodText_parts h
  unfold jsTrim
  rw [List.cons_append, dropWhile_not_space hd, ← List.cons_append,
    trimRight_append_space (d :: y) (by decide)]
  exact trimRight_eq_self (d :: y) (by simp) hlast

theorem jsTrim_eq_self {C : List Char} (h : goodText C = true) : jsTrim C = C := by
  obtain ⟨⟨d, y, rfl, hd⟩, _, hlast⟩ := goodText_parts h
  unfold jsTrim
  rw [dropWhile_not_space hd]
  exact trimRight_eq_self (d :: y) (by simp) hlast

theorem extractSection_congr {c1 c2 m : List Char}
    (h : findHeader m c1 = findHeader m c2) :
    extractSection c1 m = extractSection c2 m := by
  unfold extractSection
  rw [h]

theorem extractSection_buildBlocks :
    ∀ (pre : List (List Char × List Char)) (m C : List Char)
      (post : List (List Char × List Char)),
    (∀ x ∈ m, x ∈ markerChars) →
    (∀ p ∈ pre, (∀ x ∈ p.1, x ∈ markerChars) ∧ ¬ p.1 = m ∧ (∀ x ∈ p.2, ¬ x = '#')) →
    goodText C = true →
    extractSection (buildBlocks (pre ++ (m, C) :: post)) m = C := by
  intro pre
  induction pre with
  | nil =>
    intro m C post hm _ hC
    obtain ⟨⟨d, y, hdy, hd⟩, hhash, _⟩ := goodText_parts hC
    have hb : buildBlocks ([] ++ (m, C) :: post) =
        '#' :: '#' :: ' ' :: (m ++ '\n' :: (C ++ '\n' :: buildBlocks post)) := by
      simp [buildBlocks]
    have hfind : findHeader m (buildBlocks ([] ++ (m, C) :: post)) =
        some (C ++ '\n' :: buildBlocks post) := by
      rw [hb]
      subst hdy
      rw [show (d :: y) ++ '\n' :: buildBlocks post =
          d :: (y ++ '\n' :: buildBlocks post) from rfl]
      exact findHeader_hit m hd _
    simp only [extractSection, hfind]
    rw [takeUntilHH_capture C post hhash]
    exact jsTrim_append_nl hC
  | cons p pre ih =>
    intro m C post hm hpre hC
    obtain ⟨m', c'⟩ := p
    have hp := hpre (m', c') (List.mem_cons_self _ _)
    have hne : ¬ m = m' := fun h => hp.2.1 h.symm
    have hb : buildBlocks (((m', c') :: pre) ++ (m, C) :: post) =
        '#' :: '#' :: ' ' ::
          (m' ++ '\n' :: (c' ++ '\n' :: buildBlocks (pre ++ (m, C) :: post))) := by
      simp [buildBlocks]
    have hskip := findHeader_skip_block m m' c'
      (buildBlocks (pre ++ (m, C) :: post)) hm hp.1 hne hp.2.2
    calc extractSection (buildBlocks (((m', c') :: pre) ++ (m, C) :: post)) m
        = extractSection (buildBlocks (pre ++ (m, C) :: post)) m := by
          rw [hb]; exact extractSection_congr hskip
      _ = C := ih m C post hm
          (fun q hq => hpre q (List.mem_cons_of_mem _ hq)) hC

theorem splitNl_no_nl : ∀ l : List Char, (∀ c ∈ l, ¬ c = '\n') → splitNl l = [l] := by
  intro l
  induction l with
  | nil => intro _; rfl
  | cons c cs ih =>
    intro h
    have hc : ¬ c = '\n' := h c (List.mem_cons_self c cs)
    have h2 := ih (fun x hx => h x (List.mem_cons_of_mem c hx))
    simp [splitNl, hc, h2]

theorem splitNl_append_nl : ∀ l t : List Char, (∀ c ∈ l, ¬ c = '\n') →
    splitNl (l ++ '\n' :: t) = l :: splitNl t := by
  intro l
  induction l with
  | nil => intro t _; simp [splitNl]
  | cons c cs ih =>
    intro t hl
    have hc : ¬ c = '\n' := hl c (List.mem_cons_self c cs)
    have h2 := ih t (fun x hx => hl x (List.mem_cons_of_mem c hx))
    simp [splitNl, hc, h2]

theorem splitNl_joinNl : ∀ ls : List (List Char),
    (∀ l ∈ ls, ∀ c ∈ l, ¬ c = '\n') → ls ≠ [] → splitNl (joinNl ls) = ls := by
  intro ls
  induction ls with
  | nil => intro _ h; exact absurd rfl h
  | cons l ls ih =>
    intro h _
    cases ls with
    | nil => exact splitNl_no_nl l (h l (List.mem_cons_self l []))
    | cons l2 ls2 =>
      have h2 := ih (fun x hx => h x (List.mem_cons_of_mem l hx)) (by simp)
      rw [show joinNl (l :: l2 :: ls2) = l ++ '\n' :: joinNl (l2 :: ls2) from rfl,
        splitNl_append_nl l _ (h l (List.mem_cons_self l _)), h2]

theorem goodLine_parts {l : List Char} (h : goodLine l = true) :
    goodText l = true ∧ ∀ c ∈ l, ¬ c = '\n' := by
  unfold goodLine at h
  simp only [Bool.and_eq_true, Bool.not_eq_true'] at h
  refine ⟨h.1, fun c hc hcn => ?_⟩
  subst hcn
  have h2 := h.2
  simp at h2
  exact absurd hc h2

theorem goodLines_parts {ls : List (List Char)} (h : goodLines ls = true) :
    ls ≠ [] ∧ ∀ l ∈ ls, goodLine l = true := by
  unfold goodLines at h
  simp only [Bool.and_eq_true, Bool.not_eq_true', List.all_eq_true] at h
  refine ⟨?_, h.2⟩
  cases ls with
  | nil => simp at h
  | cons a b => simp

theorem lastD_cons_ne {a : Char} {t : List Char} (h : t ≠ []) (d : Char) :
    lastD (a :: t) d = lastD t d := by
  cases t with
  | nil => exact absurd rfl h
  | cons b B => rfl

theorem lastD_append (A : List Char) {B : List Char} (h : B ≠ []) (d : Char) :
    lastD (A ++ B) d = lastD B d := by
  induction A with
  | nil => rfl
  | cons a A ih =>
    rw [List.cons_append, lastD_cons_ne (by simp [h]) d, ih]

theorem goodText_build {C : List Char} (hne : C ≠ []) (hhash : ∀ x ∈ C, ¬ x = '#')
    (hhead : jsSpace (C.headD ' ') = false) (hlast : jsSpace (lastD C ' ') = false) :
    goodText C = true := by
  unfold goodText noHash
  simp only [Bool.and_eq_true, Bool.not_eq_true', List.all_eq_true]
  refine ⟨⟨⟨by simpa using hne, fun x hx => by simpa using hhash x hx⟩, hhead⟩, hlast⟩

theorem goodText_joinNl : ∀ ls : List (List Char), goodLines ls = true →
    goodText (joinNl ls) = true := by
  intro ls
  induction ls with
  | nil => intro h; exact absurd (goodLines_parts h).1 (by simp)
  | cons l ls ih =>
    intro h
    obtain ⟨_, hall⟩ := goodLines_parts h
    have hl := goodLine_parts (hall l (List.mem_cons_self l ls))
    cases ls with
    | nil => exact hl.1
    | cons l2 ls2 =>
      have hJ : goodText (joinNl (l2 :: ls2)) = true := by
        apply ih
        unfold goodLines
        simp only [Bool.and_eq_true, Bool.not_eq_true', List.all_eq_true]
        exact ⟨by simp, fun x hx => hall x (List.mem_cons_of_mem l hx)⟩
      obtain ⟨⟨d, y, hdy, hd⟩, hhashJ, hlastJ⟩ := goodText_parts hJ
      obtain ⟨⟨dl, yl, hdyl, hdl⟩, hhashl, hlastl⟩ := goodText_parts hl.1
      rw [show joinNl (l :: l2 :: ls2) = l ++ '\n' :: joinNl (l2 :: ls2) from rfl]
      apply goodText_build
      · simp [hdyl]
      · intro x hx
        rcases List.mem_append.1 hx with hx | hx
        · exact hhashl x hx
        rcases List.mem_cons.1 hx with rfl | hx
        · decide
        · exact hhashJ x hx
      · rw [hdyl]
        simpa using hdl
      · rw [lastD_append l (by simp) ' ',
          lastD_cons_ne (by rw [hdy]; simp) ' ']
        exact hlastJ

theorem filter_eq_self_of {α : Type} {p : α → Bool} : ∀ l : List α,
    (∀ a ∈ l, p a = true) → l.filter p = l := by
  intro l
  induction l with
  | nil => intro _; rfl
  | cons a t ih =>
    intro h
    rw [List.filter_cons_of_pos (h a (List.mem_cons_self a t)),
      ih (fun x hx => h x (List.mem_cons_of_mem a hx))]

theorem map_eq_self_of {α : Type} {f : α → α} : ∀ l : List α,
    (∀ a ∈ l, f a = a) → l.map f = l := by
  intro l
  induction l with
  | nil => intro _; rfl
  | cons a t ih =>
    intro h
    rw [List.map_cons, h a (List.mem_cons_self a t),
      ih (fun x hx => h x (List.mem_cons_of_mem a hx))]

theorem trimTruthy_of_goodText {l : List Char} (h : goodText l = true) :
    trimTruthy l = true := by
  unfold trimTruthy
  rw [jsTrim_eq_self h]
  obtain ⟨⟨d, y, rfl, _⟩, _, _⟩ := goodText_parts h
  rfl

theorem filter_trimTruthy_joinNl {ls : List (List Char)} (h : goodLines ls = true) :
    (splitNl (joinNl ls)).filter trimTruthy = ls := by
  obtain ⟨hne, hall⟩ := goodLines_parts h
  rw [splitNl_joinNl ls (fun l hl => (goodLine_parts (hall l hl)).2) hne]
  exact filter_eq_self_of ls
    (fun l hl => trimTruthy_of_goodText (goodLine_parts (hall l hl)).1)

theorem trimmedLines_joinNl {ls : List (List Char)} (h : goodLines ls = true) :
    trimmedLines (joinNl ls) = ls := by
  obtain ⟨_, hall⟩ := goodLines_parts h
  unfold trimmedLines
  rw [filter_trimTruthy_joinNl h]
  exact map_eq_self_of ls
    (fun l hl => jsTrim_eq_self (goodLine_parts (hall l hl)).1)

theorem bullet_filter_map_joinNl {ls : List (List Char)} (p : List Char → Bool)
    (h : goodLines ls = true) (hp : ∀ l ∈ ls, p l = true) :
    ((splitNl (joinNl ls)).filter (fun l => trimTruthy l && p l)).map jsTrim = ls := by
  obtain ⟨hne, hall⟩ := goodLines_parts h
  rw [splitNl_joinNl ls (fun l hl => (goodLine_parts (hall l hl)).2) hne]
  rw [filter_eq_self_of ls (fun l hl => by
    rw [Bool.and_eq_true]
    exact ⟨trimTruthy_of_goodText (goodLine_parts (hall l hl)).1, hp l hl⟩)]
  exact map_eq_self_of ls
    (fun l hl => jsTrim_eq_self (goodLine_parts (hall l hl)).1)

/-!
## Claim theorems
-/


/-- C1: for every input text containing all ten section markers, each
followed by well-formed content (non-empty, `#`-free, not starting or
ending in whitespace; list-valued sections as such lines, carrying the
bullet shapes the parser filters for), `parseMSBTEContent` populates all
ten fields with exactly the inserted content, byte for byte. -/
theorem parseMSBTEContent_roundTrip
    (a1 : List Char) (co1 : List (List Char)) (me1 ra : List Char)
    (a2 co2 : List (List Char)) (li : List Char) (lp : List (List Char))
    (me2 : List Char) (sk ap : List (List Char))
    (h1 : goodText a1 = true)
    (h2 : goodLines co1 = true)
    (h3 : goodText me1 = true)
    (h4 : goodText ra = true)
    (h5 : goodLines a2 = true) (h5b : ∀ l ∈ a2, aimsBullet l = true)
    (h6 : goodLines co2 = true)
    (h7 : goodLine li = true)
    (h8 : ∀ l ∈ lp, goodLine l = true ∧ litBullet l = true)
    (h9 : goodText me2 = true)
    (h10 : goodLines sk = true) (h10b : ∀ l ∈ sk, dashBullet l = true)
    (h11 : goodLines ap = true) (h11b : ∀ l ∈ ap, dashBullet l = true) :
    parseMSBTEContent (buildMSBTEText a1 co1 me1 ra a2 co2 li lp me2 sk ap) =
      { annexure1 := { aims := a1, courseOutcome := co1, methodology := me1 }
        annexure2 :=
          { rationale := ra, aims := a2, courseOutcome := co2,
            literatureIntro := li, literaturePoints := lp,
            methodology := me2, skills := sk, applications := ap } } := by
  have hlit : goodLines (li :: lp) = true := by
    unfold goodLines
    simp only [Bool.and_eq_true, Bool.not_eq_true', List.all_eq_true]
    refine ⟨by simp, ?_⟩
    intro x hx
    rcases List.mem_cons.1 hx with rfl | hx
    · exact h7
    · exact (h8 x hx).1
  have g2 : goodText (joinNl co1) = true := goodText_joinNl _ h2
  have g5 : goodText (joinNl a2) = true := goodText_joinNl _ h5
  have g6 : goodText (joinNl co2) = true := goodText_joinNl _ h6
  have g7 : goodText (joinNl (li :: lp)) = true := goodText_joinNl _ hlit
  have g10 : goodText (joinNl sk) = true := goodText_joinNl _ h10
  have g11 : goodText (joinNl ap) = true := goodText_joinNl _ h11
  have hall : ∀ p ∈ ([(M_A1_AIMS, a1),
      (M_A1_CO, joinNl co1),
      (M_A1_METH, me1),
      (M_A2_RAT, ra),
      (M_A2_AIMS, joinNl a2),
      (M_A2_CO, joinNl co2),
      (M_A2_LIT, joinNl (li :: lp)),
      (M_A2_METH, me2),
      (M_A2_SKILLS, joinNl sk),
      (M_A2_APPS, joinNl ap)] : List (List Char × List Char)),
      (∀ x ∈ p.1, x ∈ markerChars) ∧ (∀ x ∈ p.2, ¬ x = '#') := by
    intro p hp
    simp only [List.mem_cons, List.not_mem_nil, or_false] at hp
    rcases hp with rfl | rfl | rfl | rfl | rfl | rfl | rfl | rfl | rfl | rfl
    · exact ⟨(by decide : ∀ x ∈ M_A1_AIMS, x ∈ markerChars), (goodText_parts h1).2.1⟩
    · exact ⟨(by decide : ∀ x ∈ M_A1_CO, x ∈ markerChars), (goodText_parts g2).2.1⟩
    · exact ⟨(by decide : ∀ x ∈ M_A1_METH, x ∈ markerChars), (goodText_parts h3).2.1⟩
    · exact ⟨(by decide : ∀ x ∈ M_A2_RAT, x ∈ markerChars), (goodText_parts h4).2.1⟩
    · exact ⟨(by decide : ∀ x ∈ M_A2_AIMS, x ∈ markerChars), (goodText_parts g5).2.1⟩
    · exact ⟨(by decide : ∀ x ∈ M_A2_CO, x ∈ markerChars), (goodText_parts g6).2.1⟩
    · exact ⟨(by decide : ∀ x ∈ M_A2_LIT, x ∈ markerChars), (goodText_parts g7).2.1⟩
    · exact ⟨(by decide : ∀ x ∈ M_A2_METH, x ∈ markerChars), (goodText_parts h9).2.1⟩
    · exact ⟨(by decide : ∀ x ∈ M_A2_SKILLS, x ∈ markerChars), (goodText_parts g10).2.1⟩
    · exact ⟨(by decide : ∀ x ∈ M_A2_APPS, x ∈ markerChars), (goodText_parts g11).2.1⟩
  have e1 : extractSection (buildMSBTEText a1 co1 me1 ra a2 co2 li lp me2 sk ap)
      M_A1_AIMS = a1 :=
    extractSection_buildBlocks
      []
      M_A1_AIMS a1
      [(M_A1_CO, joinNl co1), (M_A1_METH, me1), (M_A2_RAT, ra), (M_A2_AIMS, joinNl a2), (M_A2_CO, joinNl co2), (M_A2_LIT, joinNl (li :: lp)), (M_A2_METH, me2), (M_A2_SKILLS, joinNl sk), (M_A2_APPS, joinNl ap)]
      (by decide)
      (by intro p hp; exact absurd hp (List.not_mem_nil p))
      h1
  have e2 : extractSection (buildMSBTEText a1 co1 me1 ra a2 co2 li lp me2 sk ap)
      M_A1_CO = joinNl co1 :=
    extractSection_buildBlocks
      [(M_A1_AIMS, a1)]
      M_A1_CO (joinNl co1)
      [(M_A1_METH, me1), (M_A2_RAT, ra), (M_A2_AIMS, joinNl a2), (M_A2_CO, joinNl co2), (M_A2_LIT, joinNl (li :: lp)), (M_A2_METH, me2), (M_A2_SKILLS, joinNl sk), (M_A2_APPS, joinNl ap)]
      (by decide)
      (by
        intro p hp
        have h12 := hall p (List.mem_append_left _ hp)
        refine ⟨h12.1, ?_, h12.2⟩
        simp only [List.mem_cons, List.not_mem_nil, or_false] at hp
        rcases hp with rfl
        · exact (by decide : ¬ M_A1_AIMS = M_A1_CO)
        )
      g2
  have e3 : extractSection (buildMSBTEText a1 co1 me1 ra a2 co2 li lp me2 sk ap)
      M_A1_METH = me1 :=
    extractSection_buildBlocks
      [(M_A1_AIMS, a1), (M_A1_CO, joinNl co1)]
      M_A1_METH me1
      [(M_A2_RAT, ra), (M_A2_AIMS, joinNl a2), (M_A2_CO, joinNl co2), (M_A2_LIT, joinNl (li :: lp)), (M_A2_METH, me2), (M_A2_SKILLS, joinNl sk), (M_A2_APPS, joinNl ap)]
      (by decide)
      (by
        intro p hp
        have h12 := hall p (List.mem_append_left _ hp)
        refine ⟨h12.1, ?_, h12.2⟩
        simp only [List.mem_cons, List.not_mem_nil, or_false] at hp
        rcases hp with rfl | rfl
        · exact (by decide : ¬ M_A1_AIMS = M_A1_METH)
        · exact (by decide : ¬ M_A1_CO = M_A1_METH)
        )
      h3
  have e4 : extractSection (buildMSBTEText a1 co1 me1 ra a2 co2 li lp me2 sk ap)
      M_A2_RAT = ra :=
    extractSection_buildBlocks
      [(M_A1_AIMS, a1), (M_A1_CO, joinNl co1), (M_A1_METH, me1)]
      M_A2_RAT ra
      [(M_A2_AIMS, joinNl a2), (M_A2_CO, joinNl co2), (M_A2_LIT, joinNl (li :: lp)), (M_A2_METH, me2), (M_A2_SKILLS, joinNl sk), (M_A2_APPS, joinNl ap)]
      (by decide)
      (by
        intro p hp
        have h12 := hall p (List.mem_append_left _ hp)
        refine ⟨h12.1, ?_, h12.2⟩
        simp only [List.mem_cons, List.not_mem_nil, or_false] at hp
        rcases hp with rfl | rfl | rfl
        · exact (by decide : ¬ M_A1_AIMS = M_A2_RAT)
        · exact (by decide : ¬ M_A1_CO = M_A2_RAT)
        · exact (by decide : ¬ M_A1_METH = M_A2_RAT)
        )
      h4
  have e5 : extractSection (buildMSBTEText a1 co1 me1 ra a2 co2 li lp me2 sk ap)
      M_A2_AIMS = joinNl a2 :=
    extractSection_buildBlocks
      [(M_A1_AIMS, a1), (M_A1_CO, joinNl co1), (M_A1_METH, me1), (M_A2_RAT, ra)]
      M_A2_AIMS (joinNl a2)
      [(M_A2_CO, joinNl co2), (M_A2_LIT, joinNl (li :: lp)), (M_A2_METH, me2), (M_A2_SKILLS, joinNl sk), (M_A2_APPS, joinNl ap)]
      (by decide)
      (by
        intro p hp
        have h12 := hall p (List.mem_append_left _ hp)
        refine ⟨h12.1, ?_, h12.2⟩
        simp only [List.mem_cons, List.not_mem_nil, or_false] at hp
        rcases hp with rfl | rfl | rfl | rfl
        · exact (by decide : ¬ M_A1_AIMS = M_A2_AIMS)
        · exact (by decide : ¬ M_A1_CO = M_A2_AIMS)
        · exact (by decide : ¬ M_A1_METH = M_A2_AIMS)
        · exact (by decide : ¬ M_A2_RAT = M_A2_AIMS)
        )
      g5
  have e6 : extractSection (buildMSBTEText a1 co1 me1 ra a2 co2 li lp me2 sk ap)
      M_A2_CO = joinNl co2 :=
    extractSection_buildBlocks
      [(M_A1_AIMS, a1), (M_A1_CO, joinNl co1), (M_A1_METH, me1), (M_A2_RAT, ra), (M_A2_AIMS, joinNl a2)]
      M_A2_CO (joinNl co2)
      [(M_A2_LIT, joinNl (li :: lp)), (M_A2_METH, me2), (M_A2_SKILLS, joinNl sk), (M_A2_APPS, joinNl ap)]
      (by decide)
      (by
        intro p hp
        have h12 := hall p (List.mem_append_left _ hp)
        refine ⟨h12.1, ?_, h12.2⟩
        simp only [List.mem_cons, List.not_mem_nil, or_false] at hp
        rcases hp with rfl | rfl | rfl | rfl | rfl
        · exact (by decide : ¬ M_A1_AIMS = M_A2_CO)
        · exact (by decide : ¬ M_A1_CO = M_A2_CO)
        · exact (by decide : ¬ M_A1_METH = M_A2_CO)
        · exact (by decide : ¬ M_A2_RAT = M_A2_CO)
        · exact (by decide : ¬ M_A2_AIMS = M_A2_CO)
        )
      g6
  have e7 : extractSection (buildMSBTEText a1 co1 me1 ra a2 co2 li lp me2 sk ap)
      M_A2_LIT = joinNl (li :: lp) :=
    extractSection_buildBlocks
      [(M_A1_AIMS, a1), (M_A1_CO, joinNl co1), (M_A1_METH, me1), (M_A2_RAT, ra), (M_A2_AIMS, joinNl a2), (M_A2_CO, joinNl co2)]
      M_A2_LIT (joinNl (li :: lp))
      [(M_A2_METH, me2), (M_A2_SKILLS, joinNl sk), (M_A2_APPS, joinNl ap)]
      (by decide)
      (by
        intro p hp
        have h12 := hall p (List.mem_append_left _ hp)
        refine ⟨h12.1, ?_, h12.2⟩
        simp only [List.mem_cons, List.not_mem_nil, or_false] at hp
        rcases hp with rfl | rfl | rfl | rfl | rfl | rfl
        · exact (by decide : ¬ M_A1_AIMS = M_A2_LIT)
        · exact (by decide : ¬ M_A1_CO = M_A2_LIT)
        · exact (by decide : ¬ M_A1_METH = M_A2_LIT)
        · exact (by decide : ¬ M_A2_RAT = M_A2_LIT)
        · exact (by decide : ¬ M_A2_AIMS = M_A2_LIT)
        · exact (by decide : ¬ M_A2_CO = M_A2_LIT)
        )
      g7
  have e8 : extractSection (buildMSBTEText a1 co1 me1 ra a2 co2 li lp me2 sk ap)
      M_A2_METH = me2 :=
    extractSection_buildBlocks
      [(M_A1_AIMS, a1), (M_A1_CO, joinNl co1), (M_A1_METH, me1), (M_A2_RAT, ra), (M_A2_AIMS, joinNl a2), (M_A2_CO, joinNl co2), (M_A2_LIT, joinNl (li :: lp))]
      M_A2_METH me2
      [(M_A2_SKILLS, joinNl sk), (M_A2_APPS, joinNl ap)]
      (by decide)
      (by
        intro p hp
        have h12 := hall p (List.mem_append_left _ hp)
        refine ⟨h12.1, ?_, h12.2⟩
        simp only [List.mem_cons, List.not_mem_nil, or_false] at hp
        rcases hp with rfl | rfl | rfl | rfl | rfl | rfl | rfl
        · exact (by decide : ¬ M_A1_AIMS = M_A2_METH)
        · exact (by decide : ¬ M_A1_CO = M_A2_METH)
        · exact (by decide : ¬ M_A1_METH = M_A2_METH)
        · exact (by decide : ¬ M_A2_RAT = M_A2_METH)
        · exact (by decide : ¬ M_A2_AIMS = M_A2_METH)
        · exact (by decide : ¬ M_A2_CO = M_A2_METH)
        · exact (by decide : ¬ M_A2_LIT = M_A2_METH)
        )
      h9
  have e9 : extractSection (buildMSBTEText a1 co1 me1 ra a2 co2 li lp me2 sk ap)
      M_A2_SKILLS = joinNl sk :=
    extractSection_buildBlocks
      [(M_A1_AIMS, a1), (M_A1_CO, joinNl co1), (M_A1_METH, me1), (M_A2_RAT, ra), (M_A2_AIMS, joinNl a2), (M_A2_CO, joinNl co2), (M_A2_LIT, joinNl (li :: lp)), (M_A2_METH, me2)]
      M_A2_SKILLS (joinNl sk)
      [(M_A2_APPS, joinNl ap)]
      (by decide)
      (by
        intro p hp
        have h12 := hall p (List.mem_append_left _ hp)
        refine ⟨h12.1, ?_, h12.2⟩
        simp only [List.mem_cons, List.not_mem_nil, or_false] at hp
        rcases hp with rfl | rfl | rfl | rfl | rfl | rfl | rfl | rfl
        · exact (by decide : ¬ M_A1_AIMS = M_A2_SKILLS)
        · exact (by decide : ¬ M_A1_CO = M_A2_SKILLS)
        · exact (by decide : ¬ M_A1_METH = M_A2_SKILLS)
        · exact (by decide : ¬ M_A2_RAT = M_A2_SKILLS)
        · exact (by decide : ¬ M_A2_AIMS = M_A2_SKILLS)
        · exact (by decide : ¬ M_A2_CO = M_A2_SKILLS)
        · exact (by decide : ¬ M_A2_LIT = M_A2_SKILLS)
        · exact (by decide : ¬ M_A2_METH = M_A2_SKILLS)
        )
      g10
  have e10 : extractSection (buildMSBTEText a1 co1 me1 ra a2 co2 li lp me2 sk ap)
      M_A2_APPS = joinNl ap :=
    extractSection_buildBlocks
      [(M_A1_AIMS, a1), (M_A1_CO, joinNl co1), (M_A1_METH, me1), (M_A2_RAT, ra), (M_A2_AIMS, joinNl a2), (M_A2_CO, joinNl co2), (M_A2_LIT, joinNl (li :: lp)), (M_A2_METH, me2), (M_A2_SKILLS, joinNl sk)]
      M_A2_APPS (joinNl ap)
      []
      (by decide)
      (by
        intro p hp
        have h12 := hall p (List.mem_append_left _ hp)
        refine ⟨h12.1, ?_, h12.2⟩
        simp only [List.mem_cons, List.not_mem_nil, or_false] at hp
        rcases hp with rfl | rfl | rfl | rfl | rfl | rfl | rfl | rfl | rfl
        · exact (by decide : ¬ M_A1_AIMS = M_A2_APPS)
        · exact (by decide : ¬ M_A1_CO = M_A2_APPS)
        · exact (by decide : ¬ M_A1_METH = M_A2_APPS)
        · exact (by decide : ¬ M_A2_RAT = M_A2_APPS)
        · exact (by decide : ¬ M_A2_AIMS = M_A2_APPS)
        · exact (by decide : ¬ M_A2_CO = M_A2_APPS)
        · exact (by decide : ¬ M_A2_LIT = M_A2_APPS)
        · exact (by decide : ¬ M_A2_METH = M_A2_APPS)
        · exact (by decide : ¬ M_A2_SKILLS = M_A2_APPS)
        )
      g11
  have elit2 : (((li :: lp).drop 1).filter litBullet).map jsTrim = lp := by
    simp only [List.drop_one, List.tail_cons]
    rw [filter_eq_self_of lp (fun l hl => (h8 l hl).2)]
    exact map_eq_self_of lp
      (fun l hl => jsTrim_eq_self (goodLine_parts (h8 l hl).1).1)
  simp only [parseMSBTEContent]
  rw [e1, e2, e3, e4, e5, e6, e7, e8, e9, e10,
    trimmedLines_joinNl h2, trimmedLines_joinNl h6,
    bullet_filter_map_joinNl aimsBullet h5 h5b,
    bullet_filter_map_joinNl dashBullet h10 h10b,
    bullet_filter_map_joinNl dashBullet h11 h11b,
    filter_trimTruthy_joinNl hlit, elit2]
  rfl

/-- Concrete witness for `parseMSBTEContent_roundTrip`. -/
theorem parseMSBTEContent_roundTrip_witness :
    parseMSBTEContent (buildMSBTEText "Aim one.".toList
      ["a) CO1".toList, "b) CO2".toList] "Method text.".toList
      "Rationale.".toList ["- bullet A".toList] ["c) done".toList]
      "Intro line".toList ["- point: one".toList] "Actual method.".toList
      ["- skill".toList] ["- app".toList]) =
      { annexure1 :=
          { aims := "Aim one.".toList
            courseOutcome := ["a) CO1".toList, "b) CO2".toList]
            methodology := "Method text.".toList }
        annexure2 :=
          { rationale := "Rationale.".toList
            aims := ["- bullet A".toList]
            courseOutcome := ["c) done".toList]
            literatureIntro := "Intro line".toList
            literaturePoints := ["- point: one".toList]
            methodology := "Actual method.".toList
            skills := ["- skill".toList]
            applications := ["- app".toList] } } :=
  parseMSBTEContent_roundTrip _ _ _ _ _ _ _ _ _ _ _
    (by decide) (by decide) (by decide) (by decide) (by decide) (by decide)
    (by decide) (by decide) (by decide) (by decide) (by decide) (by decide)
    (by decide) (by decide)

/-- C2: for every input text, each of the ten markers whose pattern has
no match yields the empty string (text-valued fields) or the empty list
(list-valued fields); the parser is total, so it never throws. -/
theorem parseMSBTEContent_missing_markers (content : List Char) :
    (findHeader M_A1_AIMS content = none →
      (parseMSBTEContent content).annexure1.aims = []) ∧
    (findHeader M_A1_CO content = none →
      (parseMSBTEContent content).annexure1.courseOutcome = []) ∧
    (findHeader M_A1_METH content = none →
      (parseMSBTEContent content).annexure1.methodology = []) ∧
    (findHeader M_A2_RAT content = none →
      (parseMSBTEContent content).annexure2.rationale = []) ∧
    (findHeader M_A2_AIMS content = none →
      (parseMSBTEContent content).annexure2.aims = []) ∧
    (findHeader M_A2_CO content = none →
      (parseMSBTEContent content).annexure2.courseOutcome = []) ∧
    (findHeader M_A2_LIT content = none →
      (parseMSBTEContent content).annexure2.literatureIntro = [] ∧
      (parseMSBTEContent content).annexure2.literaturePoints = []) ∧
    (findHeader M_A2_METH content = none →
      (parseMSBTEContent content).annexure2.methodology = []) ∧
    (findHeader M_A2_SKILLS content = none →
      (parseMSBTEContent content).annexure2.skills = []) ∧
    (findHeader M_A2_APPS content = none →
      (parseMSBTEContent content).annexure2.applications = []) := by
  refine ⟨fun h => ?_, fun h => ?_, fun h => ?_, fun h => ?_, fun h => ?_,
    fun h => ?_, fun h => ⟨?_, ?_⟩, fun h => ?_, fun h => ?_, fun h => ?_⟩ <;>
    simp [parseMSBTEContent, extractSection, h, trimmedLines, splitNl,
      trimTruthy, jsTrim, trimRight]

/-- Concrete witness for `parseMSBTEContent_missing_markers`: a text with
none of the markers leaves every field empty. -/
theorem parseMSBTEContent_missing_markers_witness :
    (parseMSBTEContent "hello world".toList).annexure1.aims = [] ∧
    (parseMSBTEContent "hello world".toList).annexure1.courseOutcome = [] ∧
    (parseMSBTEContent "hello world".toList).annexure1.methodology = [] ∧
    (parseMSBTEContent "hello world".toList).annexure2.rationale = [] ∧
    (parseMSBTEContent "hello world".toList).annexure2.aims = [] ∧
    (parseMSBTEContent "hello world".toList).annexure2.courseOutcome = [] ∧
    (parseMSBTEContent "hello world".toList).annexure2.literatureIntro = [] ∧
    (parseMSBTEContent "hello world".toList).annexure2.literaturePoints = [] ∧
    (parseMSBTEContent "hello world".toList).annexure2.methodology = [] ∧
    (parseMSBTEContent "hello world".toList).annexure2.skills = [] ∧
    (parseMSBTEContent "hello world".toList).annexure2.applications = [] := by
  have h := parseMSBTEContent_missing_markers "hello world".toList
  exact ⟨h.1 (by decide), h.2.1 (by decide), h.2.2.1 (by decide),
    h.2.2.2.1 (by decide), h.2.2.2.2.1 (by decide), h.2.2.2.2.2.1 (by decide),
    (h.2.2.2.2.2.2.1 (by decide)).1, (h.2.2.2.2.2.2.1 (by decide)).2,
    h.2.2.2.2.2.2.2.1 (by decide), h.2.2.2.2.2.2.2.2.1 (by decide),
    h.2.2.2.2.2.2.2.2.2 (by decide)⟩

theorem hasHH_cons_cons (a b : Char) (cs : List Char) :
    hasHH (a :: b :: cs) = ((a = '#' && b = '#') || hasHH (b :: cs)) := rfl

theorem hasHH_exists : ∀ s : List Char, hasHH s = true →
    ∃ u v, s = u ++ '#' :: '#' :: v := by
  intro s
  induction s with
  | nil => intro h; simp [hasHH] at h
  | cons a t ih =>
    intro h
    cases t with
    | nil => simp [hasHH] at h
    | cons b cs =>
      rw [hasHH_cons_cons] at h
      simp only [Bool.or_eq_true, Bool.and_eq_true, decide_eq_true_eq] at h
      rcases h with ⟨rfl, rfl⟩ | h
      · exact ⟨[], cs, rfl⟩
      · obtain ⟨u, v, huv⟩ := ih h
        exact ⟨a :: u, v, by rw [huv]; rfl⟩

theorem hasHH_append_of (u v : List Char) : hasHH (u ++ '#' :: '#' :: v) = true := by
  induction u with
  | nil => simp [hasHH]
  | cons a t ih =>
    cases t with
    | nil => simp [hasHH]
    | cons b cs =>
      simp only [List.cons_append] at ih ⊢
      rw [hasHH_cons_cons, ih]
      simp

theorem hasHH_false_infix {s l : List Char} (h : hasHH s = false)
    (hinf : l <:+: s) : hasHH l = false := by
  cases hl : hasHH l with
  | false => rfl
  | true =>
    exfalso
    obtain ⟨u, v, huv⟩ := hasHH_exists l hl
    obtain ⟨p, q, hpq⟩ := hinf
    have htrue : hasHH s = true := by
      rw [← hpq, huv]
      rw [show p ++ (u ++ '#' :: '#' :: v) ++ q =
          (p ++ u) ++ '#' :: '#' :: (v ++ q) by simp [List.append_assoc]]
      exact hasHH_append_of _ _
    rw [h] at htrue
    exact Bool.false_ne_true htrue

theorem trimRight_isPrefixOf : ∀ s : List Char, trimRight s <+: s := by
  intro s
  induction s with
  | nil => exact List.nil_prefix
  | cons c cs ih =>
    rw [trimRight_cons]
    split
    · exact List.nil_prefix
    · exact List.cons_prefix_cons.2 ⟨rfl, ih⟩

theorem jsTrim_isInfixOf (s : List Char) : jsTrim s <:+: s :=
  ((trimRight_isPrefixOf _).isInfix).trans ((List.dropWhile_suffix _).isInfix)

theorem splitNl_mem_structure : ∀ s : List Char,
    ∃ l ls, splitNl s = l :: ls ∧ l <+: s ∧ ∀ x ∈ ls, x <:+: s := by
  intro s
  induction s with
  | nil => exact ⟨[], [], rfl, List.nil_prefix, by simp⟩
  | cons c cs ih =>
    obtain ⟨l, ls, heq, hpre, hmem⟩ := ih
    by_cases hc : c = '\n'
    · subst hc
      refine ⟨[], l :: ls, by simp [splitNl, heq], List.nil_prefix, ?_⟩
      intro x hx
      rcases List.mem_cons.1 hx with rfl | hx
      · exact List.infix_cons hpre.isInfix
      · exact List.infix_cons (hmem x hx)
    · refine ⟨c :: l, ls, by simp [splitNl, hc, heq], ?_, ?_⟩
      · exact List.cons_prefix_cons.2 ⟨rfl, hpre⟩
      · intro x hx
        exact List.infix_cons (hmem x hx)

theorem mem_splitNl_isInfixOf {s l : List Char} (h : l ∈ splitNl s) : l <:+: s := by
  obtain ⟨l0, ls, heq, hpre, hmem⟩ := splitNl_mem_structure s
  rw [heq] at h
  rcases List.mem_cons.1 h with rfl | h
  · exact hpre.isInfix
  · exact hmem l h

theorem takeUntilHH_head (b : Char) (cs : List Char) :
    takeUntilHH (b :: cs) = [] ∨ ∃ y, takeUntilHH (b :: cs) = b :: y := by
  cases cs with
  | nil => exact Or.inr ⟨[], rfl⟩
  | cons c2 cs2 =>
    by_cases h : b = '#' ∧ c2 = '#'
    · left
      simp [takeUntilHH, h.1, h.2]
    · right
      refine ⟨takeUntilHH (c2 :: cs2), ?_⟩
      have hcond : (b = '#' && c2 = '#') = false := by
        rcases Decidable.not_and_iff_or_not.1 h with h2 | h2 <;> simp [h2]
      simp [takeUntilHH, hcond]

theorem hasHH_takeUntilHH : ∀ s : List Char, hasHH (takeUntilHH s) = false := by
  intro s
  induction s with
  | nil => rfl
  | cons a t ih =>
    cases t with
    | nil => rfl
    | cons b cs =>
      by_cases hab : a = '#' ∧ b = '#'
      · simp [takeUntilHH, hab.1, hab.2, hasHH]
      · have hcond : (a = '#' && b = '#') = false := by
          rcases Decidable.not_and_iff_or_not.1 hab with h2 | h2 <;> simp [h2]
        rw [show takeUntilHH (a :: b :: cs) = a :: takeUntilHH (b :: cs) by
          simp [takeUntilHH, hcond]]
        rcases takeUntilHH_head b cs with h0 | ⟨y, hy⟩
        · rw [h0]; rfl
        · rw [hy]
          have h3 := ih
          rw [hy] at h3
          rw [hasHH_cons_cons, hcond, h3]
          rfl

theorem hasHH_extractSection (content m : List Char) :
    hasHH (extractSection content m) = false := by
  unfold extractSection
  cases hfind : findHeader m content with
  | none => rfl
  | some r =>
    exact hasHH_false_infix (hasHH_takeUntilHH r) (jsTrim_isInfixOf (takeUntilHH r))

theorem hasHH_jsTrim {s : List Char} (hs : hasHH s = false) :
    hasHH (jsTrim s) = false :=
  hasHH_false_infix hs (jsTrim_isInfixOf s)

theorem hasHH_mem_splitNl {s l : List Char} (hs : hasHH s = false)
    (h : l ∈ splitNl s) : hasHH l = false :=
  hasHH_false_infix hs (mem_splitNl_isInfixOf h)

/-- C10: no string produced by `parseMSBTEContent` — text-valued field,
literature introduction, or element of a list-valued field — contains
the substring `##`: every section body is cut off at the first `##`
after its own marker. -/
theorem parseMSBTEContent_no_marker_delimiter (content : List Char) :
    hasHH (parseMSBTEContent content).annexure1.aims = false ∧
    (∀ l ∈ (parseMSBTEContent content).annexure1.courseOutcome, hasHH l = false) ∧
    hasHH (parseMSBTEContent content).annexure1.methodology = false ∧
    hasHH (parseMSBTEContent content).annexure2.rationale = false ∧
    (∀ l ∈ (parseMSBTEContent content).annexure2.aims, hasHH l = false) ∧
    (∀ l ∈ (parseMSBTEContent content).annexure2.courseOutcome, hasHH l = false) ∧
    hasHH (parseMSBTEContent content).annexure2.literatureIntro = false ∧
    (∀ l ∈ (parseMSBTEContent content).annexure2.literaturePoints, hasHH l = false) ∧
    hasHH (parseMSBTEContent content).annexure2.methodology = false ∧
    (∀ l ∈ (parseMSBTEContent content).annexure2.skills, hasHH l = false) ∧
    (∀ l ∈ (parseMSBTEContent content).annexure2.applications, hasHH l = false) := by
  have hfm : ∀ (sec : List Char) (p : List Char → Bool) (l : List Char),
      hasHH sec = false → l ∈ ((splitNl sec).filter p).map jsTrim →
      hasHH l = false := by
    intro sec p l hsec hl
    obtain ⟨l', hl', rfl⟩ := List.mem_map.1 hl
    exact hasHH_jsTrim (hasHH_mem_splitNl hsec (List.mem_of_mem_filter hl'))
  simp only [parseMSBTEContent]
  refine ⟨hasHH_extractSection _ _, ?_, hasHH_extractSection _ _,
    hasHH_extractSection _ _, ?_, ?_, ?_, ?_, hasHH_extractSection _ _, ?_, ?_⟩
  · intro l hl
    exact hfm _ _ l (hasHH_extractSection content M_A1_CO) hl
  · intro l hl
    exact hfm _ _ l (hasHH_extractSection content M_A2_AIMS) hl
  · intro l hl
    exact hfm _ _ l (hasHH_extractSection content M_A2_CO) hl
  · cases hll : (splitNl (extractSection content M_A2_LIT)).filter trimTruthy with
    | nil => rfl
    | cons x xs =>
      have hx : x ∈ (splitNl (extractSection content M_A2_LIT)).filter trimTruthy := by
        rw [hll]; exact List.mem_cons_self x xs
      simp only [List.headD_cons]
      exact hasHH_mem_splitNl (hasHH_extractSection content M_A2_LIT)
        (List.mem_of_mem_filter hx)
  · intro l hl
    obtain ⟨l', hl', rfl⟩ := List.mem_map.1 hl
    have h1 := List.mem_of_mem_filter hl'
    have h2 := List.mem_of_mem_drop h1
    exact hasHH_jsTrim (hasHH_mem_splitNl (hasHH_extractSection content M_A2_LIT)
      (List.mem_of_mem_filter h2))
  · intro l hl
    exact hfm _ _ l (hasHH_extractSection content M_A2_SKILLS) hl
  · intro l hl
    exact hfm _ _ l (hasHH_extractSection content M_A2_APPS) hl

/-- C6: `applyFinalFormatting` is a pure function of its two inputs (no
network call in the model, matching the source): it applies the
whitespace/heading normalisation `enhanceFormatting` exactly when the
compliance score is below 80, the lexical substitution `enhanceQuality`
(dropping very/really/quite, replacing good/nice/bad by
effective/appropriate/inadequate) exactly when the quality score is
below 85, and returns its input unchanged when both scores are at or
above the thresholds. -/
theorem applyFinalFormatting_cases (content : List Char) (cc : ComplianceCheck) :
    (80 ≤ cc.complianceScore → 85 ≤ cc.qualityScore →
      applyFinalFormatting content cc = content) ∧
    (cc.complianceScore < 80 → 85 ≤ cc.qualityScore →
      applyFinalFormatting content cc = enhanceFormatting content) ∧
    (80 ≤ cc.complianceScore → cc.qualityScore < 85 →
      applyFinalFormatting content cc = enhanceQuality content) ∧
    (cc.complianceScore < 80 → cc.qualityScore < 85 →
      applyFinalFormatting content cc = enhanceQuality (enhanceFormatting content)) := by
  unfold applyFinalFormatting
  refine ⟨fun h1 h2 => ?_, fun h1 h2 => ?_, fun h1 h2 => ?_, fun h1 h2 => ?_⟩
  · rw [if_neg (Nat.not_lt.2 h1), if_neg (Nat.not_lt.2 h2)]
  · rw [if_pos h1, if_neg (Nat.not_lt.2 h2)]
  · rw [if_neg (Nat.not_lt.2 h1), if_pos h2]
  · rw [if_pos h1, if_pos h2]

/-- Concrete witness for `applyFinalFormatting_cases`: with both scores
at the thresholds the text passes through unchanged. -/
theorem applyFinalFormatting_cases_witness :
    applyFinalFormatting "A very good draft".toList
      { isCompliant := true, complianceScore := 80, issues := [],
        recommendations := [], qualityScore := 85 } = "A very good draft".toList :=
  (applyFinalFormatting_cases "A very good draft".toList
    { isCompliant := true, complianceScore := 80, issues := [],
      recommendations := [], qualityScore := 85 }).1 (by decide) (by decide)

/-- C3 counterexample: stage-1 content `"good"`, stage 2 and stage 3
both fail.  The pipeline's final output is `"effective"`: the default
compliance scores 70/75 trigger both stage-4 transforms, so the output
does not contain the stage-1 content unmodified. -/
theorem pipeline_degrade_counterexample :
    pipelineFinalText
      { content := "good".toList
        qualityMetrics :=
          { technicalDepth := 0, academicQuality := 0, completeness := 0,
            relevance := 0 }
        suggestions := [] } FetchOutcome.networkError FetchOutcome.networkError =
      "effective".toList ∧
    containsSub "good".toList
      (pipelineFinalText
        { content := "good".toList
          qualityMetrics :=
            { technicalDepth := 0, academicQuality := 0, completeness := 0,
              relevance := 0 }
          suggestions := [] } FetchOutcome.networkError FetchOutcome.networkError) =
      false := by
  constructor
  · decide
  · decide

/-- C3 amended: the pipeline never throws when stage 2 or stage 3
fails.  A failed stage-2 call passes the stage-1 text through, and if
stage 3 then succeeds with scores at or above 80/85 the final output is
exactly the stage-1 content.  But when stage 3 fails, its fallback
scores 70/75 are below both stage-4 thresholds, so the final output is
the deterministic `enhanceQuality ∘ enhanceFormatting` of the stage-1
text — lexically modified, not the text itself. -/
theorem pipeline_degrade (stage1 : AIProcessingResult) (status : Nat)
    (analysis : List Char) (hok : responseOk status = true)
    (hc : 80 ≤ (parseComplianceAnalysis analysis).complianceScore)
    (hq : 85 ≤ (parseComplianceAnalysis analysis).qualityScore) :
    pipelineFinalText stage1 FetchOutcome.networkError
      (FetchOutcome.response status analysis) = stage1.content ∧
    pipelineFinalText stage1 FetchOutcome.networkError
      FetchOutcome.networkError =
      enhanceQuality (enhanceFormatting stage1.content) := by
  constructor
  · simp only [pipelineFinalText, validateAndEnhanceContent,
      checkMSBTECompliance, applyFinalFormatting]
    rw [if_pos hok, if_neg (Nat.not_lt.2 hc), if_neg (Nat.not_lt.2 hq)]
  · rfl

/-- Concrete witness for `pipeline_degrade`. -/
theorem pipeline_degrade_witness :
    pipelineFinalText
      { content := "Stage one text".toList
        qualityMetrics :=
          { technicalDepth := 0, academicQuality := 0, completeness := 0,
            relevance := 0 }
        suggestions := [] } FetchOutcome.networkError
      (FetchOutcome.response 200
        "COMPLIANCE_SCORE: 90\nIS_COMPLIANT: true\nQUALITY_SCORE: 92".toList) =
      "Stage one text".toList :=
  (pipeline_degrade _ 200
    "COMPLIANCE_SCORE: 90\nIS_COMPLIANT: true\nQUALITY_SCORE: 92".toList
    (by decide) (by decide) (by decide)).1

/-- C5 counterexample: a successful stage-3 response whose analysis text
has none of the fixed-format fields falls back to scores 70/75 with
EMPTY issue and recommendation lists — not the single generic issue the
claim describes (that issue appears only when the call itself fails). -/
theorem checkMSBTECompliance_malformed_counterexample :
    (checkMSBTECompliance
      (FetchOutcome.response 200 "completely malformed output".toList)).complianceScore
        = 70 ∧
    (checkMSBTECompliance
      (FetchOutcome.response 200 "completely malformed output".toList)).qualityScore
        = 75 ∧
    (checkMSBTECompliance
      (FetchOutcome.response 200 "completely malformed output".toList)).issues = [] ∧
    ¬ (checkMSBTECompliance
      (FetchOutcome.response 200 "completely malformed output".toList)).issues.length
        = 1 := by
  refine ⟨by decide, by decide, by decide, by decide⟩

/-- C5 amended: when the stage-3 call succeeds but the analysis text has
none of the fixed-format fields, `checkMSBTECompliance` returns the
conservative defaults 70/75 with empty issue and recommendation lists
and `isCompliant = false` — it does not fail the request; the single
generic issue (`"Compliance check failed"`) is produced only by the
catch branch, when the call itself fails. -/
theorem checkMSBTECompliance_defaults (analysis : List Char) (status : Nat)
    (h1 : scanLitDigits "COMPLIANCE_SCORE: ".toList analysis = none)
    (h2 : scanLitDigits "QUALITY_SCORE: ".toList analysis = none)
    (h3 : scanBracket "ISSUES: [".toList analysis = none)
    (h4 : scanBracket "RECOMMENDATIONS: [".toList analysis = none)
    (h5 : scanIsCompliant analysis = none)
    (hok : responseOk status = true) :
    checkMSBTECompliance (FetchOutcome.response status analysis) =
      { isCompliant := false, complianceScore := 70, issues := [],
        recommendations := [], qualityScore := 75 } ∧
    checkMSBTECompliance FetchOutcome.networkError = defaultComplianceCheck := by
  constructor
  · simp only [checkMSBTECompliance]
    rw [if_pos hok]
    unfold parseComplianceAnalysis
    rw [h1, h2, h3, h4, h5]
    rfl
  · rfl

/-- Concrete witness for `checkMSBTECompliance_defaults`. -/
theorem checkMSBTECompliance_defaults_witness :
    checkMSBTECompliance (FetchOutcome.response 200 "no fields here".toList) =
      { isCompliant := false, complianceScore := 70, issues := [],
        recommendations := [], qualityScore := 75 } :=
  (checkMSBTECompliance_defaults "no fields here".toList 200
    (by decide) (by decide) (by decide) (by decide) (by decide) (by decide)).1

/-- C4: evaluation at the failing input.  A stage-1 generation response
with HTTP status 429 is swallowed by the catch in
`processWithEnhancedAI` and surfaces as a 500 response with the generic
message `"Failed to process content with enhanced AI"` — not the
429/`"Rate limits exceeded..."` response the claim (and the sibling
variants of this endpoint at lines 81-83 and 521-523) prescribe.  No
document is produced, so that part of the claim holds. -/
theorem serveGenerate_429_evaluation :
    serveGenerate
      { name := "Asha Rao".toList, rollNumber := "CO21-45".toList,
        enrollmentNumber := "2021170045".toList,
        college := "Government Polytechnic, Pune".toList,
        topic := "IoT Irrigation".toList }
      { text := [],
        struct := { sections := [], defaultFontSize := 24,
                    hasTableOfContents := false } }
      (FetchOutcome.response 429 "rate limited".toList)
      FetchOutcome.networkError FetchOutcome.networkError =
      { status := 500, success := false,
        error := some "Failed to process content with enhanced AI".toList,
        fileName := none, document := none, complianceInfo := none,
        qualityMetrics := none } ∧
    ¬ (serveGenerate
      { name := "Asha Rao".toList, rollNumber := "CO21-45".toList,
        enrollmentNumber := "2021170045".toList,
        college := "Government Polytechnic, Pune".toList,
        topic := "IoT Irrigation".toList }
      { text := [],
        struct := { sections := [], defaultFontSize := 24,
                    hasTableOfContents := false } }
      (FetchOutcome.response 429 "rate limited".toList)
      FetchOutcome.networkError FetchOutcome.networkError).status = 429 := by
  refine ⟨by decide, by decide⟩

/-- Grouping of a string into maximal runs of whitespace or
non-whitespace characters. -/
def wsChunks : List Char → List (List Char)
  | [] => []
  | c :: cs =>
    match wsChunks cs with
    | (d :: r) :: rs =>
      if jsSpace c = jsSpace d then (c :: d :: r) :: rs
      else [c] :: (d :: r) :: rs
    | _ => [[c]]

/-- Modelled from the spec's words for the filename transformation:
every maximal run of whitespace is replaced by a single underscore,
every other maximal run is kept.  Compared below against the
`replace(/\s+/g, '_')` of the source. -/
def specUnderscore (s : List Char) : List Char :=
  ((wsChunks s).map (fun r => if jsSpace (r.headD 'a') then ['_'] else r)).flatten

theorem wsChunks_cons (c : Char) (cs : List Char) :
    wsChunks (c :: cs) =
      match wsChunks cs with
      | (d :: r) :: rs =>
        if jsSpace c = jsSpace d then (c :: d :: r) :: rs
        else [c] :: (d :: r) :: rs
      | _ => [[c]] := rfl

theorem wsChunks_head : ∀ (t : List Char) (d : Char),
    ∃ r rs, wsChunks (d :: t) = (d :: r) :: rs := by
  intro t
  induction t with
  | nil => intro d; exact ⟨[], [], rfl⟩
  | cons e t' ih =>
    intro d
    obtain ⟨r, rs, h⟩ := ih e
    by_cases hde : jsSpace d = jsSpace e
    · refine ⟨e :: r, rs, ?_⟩
      rw [wsChunks_cons, h]
      simp [hde]
    · refine ⟨[], (e :: r) :: rs, ?_⟩
      rw [wsChunks_cons, h]
      simp [hde]

theorem replaceWsRuns_eq_specUnderscore : ∀ s : List Char,
    replaceWsRuns s = specUnderscore s := by
  intro s
  induction s with
  | nil => rfl
  | cons c cs ih =>
    cases cs with
    | nil =>
      by_cases hc : jsSpace c = true
      · simp [replaceWsRuns, specUnderscore, wsChunks, hc]
      · have hc2 : jsSpace c = false := by
          revert hc; cases jsSpace c <;> simp
        simp [replaceWsRuns, specUnderscore, wsChunks, hc2]
    | cons d cs' =>
      obtain ⟨r, rs, hw⟩ := wsChunks_head cs' d
      by_cases hc : jsSpace c = true
      · by_cases hd : jsSpace d = true
        · have hR : wsChunks (c :: d :: cs') = (c :: d :: r) :: rs := by
            rw [wsChunks_cons, hw]
            simp [hc, hd]
          rw [show replaceWsRuns (c :: d :: cs') = replaceWsRuns (d :: cs') by
            simp [replaceWsRuns, hc, hd]]
          rw [ih]
          unfold specUnderscore
          rw [hR, hw]
          simp [hc, hd]
        · have hd2 : jsSpace d = false := by
            revert hd; cases jsSpace d <;> simp
          have hR : wsChunks (c :: d :: cs') = [c] :: (d :: r) :: rs := by
            rw [wsChunks_cons, hw]
            simp [hc, hd2]
          rw [show replaceWsRuns (c :: d :: cs') = '_' :: replaceWsRuns (d :: cs') by
            simp [replaceWsRuns, hc, hd2]]
          rw [ih]
          unfold specUnderscore
          rw [hR, hw]
          simp [hc, hd2]
      · have hc2 : jsSpace c = false := by
          revert hc; cases jsSpace c <;> simp
        rw [show replaceWsRuns (c :: d :: cs') = c :: replaceWsRuns (d :: cs') by
          simp [replaceWsRuns, hc2]]
        rw [ih]
        unfold specUnderscore
        by_cases hd : jsSpace d = true
        · have hR : wsChunks (c :: d :: cs') = [c] :: (d :: r) :: rs := by
            rw [wsChunks_cons, hw]
            simp [hc2, hd]
          rw [hR, hw]
          simp [hc2, hd]
        · have hd2 : jsSpace d = false := by
            revert hd; cases jsSpace d <;> simp
          have hR : wsChunks (c :: d :: cs') = (c :: d :: r) :: rs := by
            rw [wsChunks_cons, hw]
            simp [hc2, hd2]
          rw [hR, hw]
          simp [hc2, hd2]

/-- C8: every successful response names the file `AI_Project_` followed
by the topic with each maximal whitespace run replaced by a single
underscore, followed by `.docx`. -/
theorem serveGenerate_fileName (sd : StudentData) (ex : ExtractedData)
    (f1 f2 f3 : FetchOutcome)
    (h : (serveGenerate sd ex f1 f2 f3).success = true) :
    (serveGenerate sd ex f1 f2 f3).fileName =
      some ("AI_Project_".toList ++ specUnderscore sd.topic ++ ".docx".toList) := by
  unfold serveGenerate at h ⊢
  cases hp : processWithEnhancedAI f1 ex with
  | error msg =>
    rw [hp] at h
    simp at h
  | ok r =>
    simp only [replaceWsRuns_eq_specUnderscore]

/-- Concrete witness for `serveGenerate_fileName`. -/
theorem serveGenerate_fileName_witness :
    (serveGenerate
      { name := "Asha Rao".toList, rollNumber := "CO21-45".toList,
        enrollmentNumber := "2021170045".toList,
        college := "Government Polytechnic, Pune".toList,
        topic := "IoT based  Smart Irrigation".toList }
      { text := [],
        struct := { sections := [], defaultFontSize := 24,
                    hasTableOfContents := false } }
      (FetchOutcome.response 200 "generated text".toList)
      FetchOutcome.networkError FetchOutcome.networkError).fileName =
      some "AI_Project_IoT_based_Smart_Irrigation.docx".toList :=
  (serveGenerate_fileName _ _ _ _ _ (by decide)).trans (by decide)

/-- C9 counterexample: the stage-3 scores are not clamped to 100: a
successful compliance response whose analysis text reads
`COMPLIANCE_SCORE: 999` puts 999 into the compliance check, and from
there into the `complianceScore` of the response's quality metrics. -/
theorem complianceScore_unclamped_counterexample :
    (checkMSBTECompliance
      (FetchOutcome.response 200 "COMPLIANCE_SCORE: 999".toList)).complianceScore
      = 999 ∧
    ((serveGenerate
      { name := "A".toList, rollNumber := "1".toList,
        enrollmentNumber := "2".toList, college := "C".toList,
        topic := "T".toList }
      { text := [],
        struct := { sections := [], defaultFontSize := 24,
                    hasTableOfContents := false } }
      (FetchOutcome.response 200 "text".toList) FetchOutcome.networkError
      (FetchOutcome.response 200 "COMPLIANCE_SCORE: 999".toList)).qualityMetrics.map
        (fun qm => qm.complianceScore)) = some 999 := by
  refine ⟨by decide, by decide⟩

theorem jsRound_bounds {q : ℚ} (hq : 0 ≤ q) :
    0 ≤ min 100 (jsRound q) ∧ min 100 (jsRound q) ≤ 100 := by
  constructor
  · apply le_min
    · norm_num
    · unfold jsRound
      apply Int.le_floor.2
      push_cast
      linarith
  · exact min_le_left _ _

/-- C9 amended: the four heuristic quality metrics of stage 1 are always
integers in the range 0..100; the compliance and quality scores of
stage 3 are natural numbers that default to 70/75 but are not clamped,
so they can exceed 100 when the analysis text supplies a larger value
(see the counterexample). -/
theorem calculateInitialQualityMetrics_range (content : List Char)
    (ex : ExtractedData) :
    (0 ≤ (calculateInitialQualityMetrics content ex).technicalDepth ∧
      (calculateInitialQualityMetrics content ex).technicalDepth ≤ 100) ∧
    (0 ≤ (calculateInitialQualityMetrics content ex).academicQuality ∧
      (calculateInitialQualityMetrics content ex).academicQuality ≤ 100) ∧
    (0 ≤ (calculateInitialQualityMetrics content ex).completeness ∧
      (calculateInitialQualityMetrics content ex).completeness ≤ 100) ∧
    (0 ≤ (calculateInitialQualityMetrics content ex).relevance ∧
      (calculateInitialQualityMetrics content ex).relevance ≤ 100) := by
  unfold calculateInitialQualityMetrics
  refine ⟨?_, ?_, ?_, ?_⟩
  · exact jsRound_bounds (by positivity)
  · exact jsRound_bounds (by positivity)
  · exact jsRound_bounds (by positivity)
  · split <;> norm_num

theorem takeWhile_append_of {p : Char → Bool} : ∀ (A : List Char) {b : Char}
    (B : List Char), (∀ a ∈ A, p a = true) → p b = false →
    (A ++ b :: B).takeWhile p = A := by
  intro A
  induction A with
  | nil =>
    intro b B _ hb
    simp [List.takeWhile_cons, hb]
  | cons a A ih =>
    intro b B hA hb
    rw [List.cons_append,
      List.takeWhile_cons_of_pos (hA a (List.mem_cons_self a A)),
      ih B (fun x hx => hA x (List.mem_cons_of_mem a hx)) hb]

theorem allowedRuns_nil_eq : allowedRuns [] = [] := rfl

theorem allowedRuns_cons (c : Char) (cs : List Char) :
    allowedRuns (c :: cs) =
      if pdfAllowed c then
        match cs with
        | d :: _ =>
          if pdfAllowed d then
            match allowedRuns cs with
            | run :: runs => (c :: run) :: runs
            | [] => [[c]]
          else [c] :: allowedRuns cs
        | [] => [[c]]
      else allowedRuns cs := rfl

theorem allowedRuns_mem_ne_nil : ∀ s : List Char, ∀ r ∈ allowedRuns s, r ≠ [] := by
  intro s
  induction s with
  | nil =>
    intro r hr
    rw [allowedRuns_nil_eq] at hr
    exact absurd hr (List.not_mem_nil r)
  | cons c cs ih =>
    intro r hr
    rw [allowedRuns_cons] at hr
    by_cases hc : pdfAllowed c = true
    · rw [if_pos hc] at hr
      cases cs with
      | nil =>
        simp only [List.mem_cons, List.not_mem_nil, or_false] at hr
        subst hr
        simp
      | cons d cs' =>
        have hr2 : r ∈ (if pdfAllowed d = true then
            (match allowedRuns (d :: cs') with
             | run :: runs => (c :: run) :: runs
             | [] => [[c]])
          else [c] :: allowedRuns (d :: cs')) := hr
        by_cases hd : pdfAllowed d = true
        · rw [if_pos hd] at hr2
          cases hA : allowedRuns (d :: cs') with
          | nil =>
            rw [hA] at hr2
            simp only [List.mem_cons, List.not_mem_nil, or_false] at hr2
            subst hr2
            simp
          | cons run runs =>
            rw [hA] at hr2
            simp only [List.mem_cons] at hr2
            rcases hr2 with rfl | hr2
            · simp
            · exact ih r (by rw [hA]; exact List.mem_cons_of_mem _ hr2)
        · rw [if_neg hd] at hr2
          simp only [List.mem_cons] at hr2
          rcases hr2 with rfl | hr2
          · simp
          · exact ih r hr2
    · rw [if_neg hc] at hr
      exact ih r hr

theorem joinSpace_cons_ne_nil {r : List Char} (rs : List (List Char))
    (hr : r ≠ []) : joinSpace (r :: rs) ≠ [] := by
  cases rs with
  | nil => exact hr
  | cons r2 rs' => simp [joinSpace]

theorem take_ne_nil_of_ne_nil {l : List Char} (h : l ≠ []) :
    l.take 10000 ≠ [] := by
  intro h2
  rcases List.take_eq_nil_iff.1 h2 with h3 | h3
  · exact absurd h3 (by norm_num)
  · exact h h3

/-- `extractFromPDF` always returns a non-empty text of at most 10,000
characters; with no matchable characters it is the placeholder. -/
theorem extractFromPDF_text_spec (decoded : List Char) :
    (extractFromPDF decoded).text ≠ [] ∧
    (extractFromPDF decoded).text.length ≤ 10000 ∧
    (allowedRuns decoded = [] →
      (extractFromPDF decoded).text = "No text extracted from PDF".toList) := by
  simp only [extractFromPDF]
  cases hA : allowedRuns decoded with
  | nil =>
    refine ⟨by decide, by decide, fun _ => rfl⟩
  | cons r rs =>
    have hr : r ≠ [] :=
      allowedRuns_mem_ne_nil decoded r (by rw [hA]; exact List.mem_cons_self r rs)
    refine ⟨?_, ?_, fun h => absurd h (List.cons_ne_nil r rs)⟩
    · simpa using take_ne_nil_of_ne_nil (joinSpace_cons_ne_nil rs hr)
    · simp

theorem matchTagTextAt_spec {o c s : List Char} {attrs inner rest : List Char}
    (h : matchTagTextAt o c s = some (attrs, inner, rest)) :
    (∀ x ∈ attrs, ¬ x = '>') ∧ inner ≠ [] ∧ (∀ x ∈ inner, ¬ x = '<') := by
  simp only [matchTagTextAt] at h
  split at h
  · split at h
    · split at h
      · exact absurd h (by simp)
      · split at h
        · simp only [Option.some.injEq, Prod.mk.injEq] at h
          obtain ⟨ha, hi, _⟩ := h
          subst ha
          subst hi
          refine ⟨?_, ?_, ?_⟩
          · intro x hx
            have := List.mem_takeWhile_imp hx
            simpa using this
          · by_contra hemp
            simp_all
          · intro x hx
            have := List.mem_takeWhile_imp hx
            simpa using this
        · exact absurd h (by simp)
    · exact absurd h (by simp)
  · exact absurd h (by simp)

theorem scanTagGo_zero (o c : List Char) (s : List Char) :
    scanTagGo o c 0 s = [] := rfl

theorem scanTagGo_succ_nil (o c : List Char) (fuel : Nat) :
    scanTagGo o c (fuel + 1) [] = [] := rfl

theorem scanTagGo_succ_cons (o c : List Char) (fuel : Nat) (a : Char)
    (as : List Char) :
    scanTagGo o c (fuel + 1) (a :: as) =
      match matchTagTextAt o c (a :: as) with
      | some (attrs, inner, rest) => (attrs, inner) :: scanTagGo o c fuel rest
      | none => scanTagGo o c fuel as := rfl

theorem scanTagGo_mem (o c : List Char) : ∀ (fuel : Nat) (s : List Char)
    (q : List Char × List Char), q ∈ scanTagGo o c fuel s →
    (∀ x ∈ q.1, ¬ x = '>') ∧ q.2 ≠ [] ∧ (∀ x ∈ q.2, ¬ x = '<') := by
  intro fuel
  induction fuel with
  | zero =>
    intro s q hq
    rw [scanTagGo_zero] at hq
    exact absurd hq (List.not_mem_nil q)
  | succ fuel ih =>
    intro s q hq
    cases s with
    | nil =>
      rw [scanTagGo_succ_nil] at hq
      exact absurd hq (List.not_mem_nil q)
    | cons a as =>
      rw [scanTagGo_succ_cons] at hq
      cases hm : matchTagTextAt o c (a :: as) with
      | none =>
        rw [hm] at hq
        exact ih as q hq
      | some t =>
        obtain ⟨attrs, inner, rest⟩ := t
        rw [hm] at hq
        simp only [List.mem_cons] at hq
        rcases hq with rfl | hq
        · exact matchTagTextAt_spec hm
        · exact ih rest q hq

theorem stripTagsGo_nil_eq : ∀ fuel : Nat, stripTagsGo fuel [] = [] := by
  intro fuel
  cases fuel <;> rfl

theorem stripTagsGo_succ_cons (fuel : Nat) (ch : Char) (cs : List Char) :
    stripTagsGo (fuel + 1) (ch :: cs) =
      if ch = '<' then
        let inner := cs.takeWhile (fun d => !(d = '>'))
        if inner.isEmpty then ch :: stripTagsGo fuel cs
        else
          match cs.drop inner.length with
          | '>' :: r2 => stripTagsGo fuel r2
          | _ => ch :: stripTagsGo fuel cs
      else ch :: stripTagsGo fuel cs := rfl

theorem stripTagsGo_tag_step (fuel : Nat) (t rest : List Char)
    (ht : ∀ x ∈ t, ¬ x = '>') (hne : t ≠ []) :
    stripTagsGo (fuel + 1) ('<' :: (t ++ '>' :: rest)) = stripTagsGo fuel rest := by
  rw [stripTagsGo_succ_cons, if_pos rfl]
  have htake : (t ++ '>' :: rest).takeWhile (fun d => !(d = '>')) = t :=
    takeWhile_append_of t rest (fun a ha => by simp [ht a ha]) (by simp)
  simp only [htake]
  rw [if_neg (by simpa using hne), List.drop_left]
  rfl

theorem stripTagsGo_emit : ∀ (A : List Char) (fuel : Nat) (rest : List Char),
    (∀ x ∈ A, ¬ x = '<') →
    stripTagsGo (A.length + fuel) (A ++ rest) = A ++ stripTagsGo fuel rest := by
  intro A
  induction A with
  | nil => intro fuel rest _; simp
  | cons a A ih =>
    intro fuel rest hA
    have ha : ¬ a = '<' := hA a (List.mem_cons_self a A)
    rw [show (a :: A).length + fuel = (A.length + fuel) + 1 by
      simp [List.length_cons]; omega]
    rw [List.cons_append, stripTagsGo_succ_cons, if_neg ha,
      ih fuel rest (fun x hx => hA x (List.mem_cons_of_mem a hx))]
    rfl

theorem stripTags_tag (o' attrs inner c' : List Char)
    (ho : ∀ x ∈ o', ¬ x = '>') (hone : o' ≠ [])
    (hattrs : ∀ x ∈ attrs, ¬ x = '>')
    (hinner : ∀ x ∈ inner, ¬ x = '<')
    (hc : ∀ x ∈ c', ¬ x = '>') (hcne : c' ≠ []) :
    stripTags (tagFullMatch ('<' :: o') ('<' :: (c' ++ ['>'])) attrs inner) =
      inner := by
  have hshape : tagFullMatch ('<' :: o') ('<' :: (c' ++ ['>'])) attrs inner =
      '<' :: ((o' ++ attrs) ++ '>' :: (inner ++ '<' :: (c' ++ ['>']))) := by
    simp [tagFullMatch, List.append_assoc]
  have hta : ∀ x ∈ o' ++ attrs, ¬ x = '>' := by
    intro x hx
    rcases List.mem_append.1 hx with h2 | h2
    · exact ho x h2
    · exact hattrs x h2
  have htb : o' ++ attrs ≠ [] := by simp [hone]
  unfold stripTags
  rw [hshape]
  rw [show ('<' :: ((o' ++ attrs) ++ '>' :: (inner ++ '<' :: (c' ++ ['>'])))).length =
      ((o' ++ attrs).length + inner.length + c'.length + 3) + 1 by simp; omega]
  rw [stripTagsGo_tag_step _ (o' ++ attrs) _ hta htb]
  rw [show (o' ++ attrs).length + inner.length + c'.length + 3 =
      inner.length + ((o' ++ attrs).length + c'.length + 3) by omega]
  rw [stripTagsGo_emit inner _ _ hinner]
  rw [show (o' ++ attrs).length + c'.length + 3 =
      ((o' ++ attrs).length + c'.length + 2) + 1 by omega]
  rw [stripTagsGo_tag_step _ c' [] hc hcne, stripTagsGo_nil_eq]
  simp

theorem stripTags_wt (attrs inner : List Char)
    (hattrs : ∀ x ∈ attrs, ¬ x = '>') (hinner : ∀ x ∈ inner, ¬ x = '<') :
    stripTags (tagFullMatch "<w:t".toList "</w:t>".toList attrs inner) = inner :=
  stripTags_tag "w:t".toList attrs inner "/w:t".toList (by decide) (by decide)
    hattrs hinner (by decide) (by decide)

theorem stripTags_at (attrs inner : List Char)
    (hattrs : ∀ x ∈ attrs, ¬ x = '>') (hinner : ∀ x ∈ inner, ¬ x = '<') :
    stripTags (tagFullMatch "<a:t".toList "</a:t>".toList attrs inner) = inner :=
  stripTags_tag "a:t".toList attrs inner "/a:t".toList (by decide) (by decide)
    hattrs hinner (by decide) (by decide)

/-- `extractFromDOCX` always returns a non-empty text of at most 10,000
characters; with no `<w:t>` match it is the placeholder. -/
theorem extractFromDOCX_text_spec (decoded : List Char) :
    (extractFromDOCX decoded).text ≠ [] ∧
    (extractFromDOCX decoded).text.length ≤ 10000 ∧
    (scanTagAll "<w:t".toList "</w:t>".toList decoded = [] →
      (extractFromDOCX decoded).text = "No text extracted".toList) := by
  simp only [extractFromDOCX]
  cases hA : scanTagAll "<w:t".toList "</w:t>".toList decoded with
  | nil => exact ⟨by decide, by decide, fun _ => rfl⟩
  | cons m ms =>
    have hm : m ∈ scanTagAll "<w:t".toList "</w:t>".toList decoded := by
      rw [hA]
      exact List.mem_cons_self m ms
    have hspec := scanTagGo_mem "<w:t".toList "</w:t>".toList decoded.length
      decoded m hm
    have hne2 : stripTags
        (tagFullMatch "<w:t".toList "</w:t>".toList m.1 m.2) ≠ [] := by
      rw [stripTags_wt m.1 m.2 hspec.1 hspec.2.2]
      exact hspec.2.1
    refine ⟨?_, ?_, fun h => absurd h (List.cons_ne_nil m ms)⟩
    · simpa using take_ne_nil_of_ne_nil
        (joinSpace_cons_ne_nil (ms.map (fun q =>
          stripTags (tagFullMatch "<w:t".toList "</w:t>".toList q.1 q.2))) hne2)
    · simp

/-- `extractFromPPTX` always returns a non-empty text of at most 10,000
characters; with no `<a:t>` match it is the placeholder. -/
theorem extractFromPPTX_text_spec (decoded : List Char) :
    (extractFromPPTX decoded).text ≠ [] ∧
    (extractFromPPTX decoded).text.length ≤ 10000 ∧
    (scanTagAll "<a:t".toList "</a:t>".toList decoded = [] →
      (extractFromPPTX decoded).text = "No text extracted".toList) := by
  simp only [extractFromPPTX]
  cases hA : scanTagAll "<a:t".toList "</a:t>".toList decoded with
  | nil => exact ⟨by decide, by decide, fun _ => rfl⟩
  | cons m ms =>
    have hm : m ∈ scanTagAll "<a:t".toList "</a:t>".toList decoded := by
      rw [hA]
      exact List.mem_cons_self m ms
    have hspec := scanTagGo_mem "<a:t".toList "</a:t>".toList decoded.length
      decoded m hm
    have hne2 : stripTags
        (tagFullMatch "<a:t".toList "</a:t>".toList m.1 m.2) ≠ [] := by
      rw [stripTags_at m.1 m.2 hspec.1 hspec.2.2]
      exact hspec.2.1
    refine ⟨?_, ?_, fun h => absurd h (List.cons_ne_nil m ms)⟩
    · simpa using take_ne_nil_of_ne_nil
        (joinSpace_cons_ne_nil (ms.map (fun q =>
          stripTags (tagFullMatch "<a:t".toList "</a:t>".toList q.1 q.2))) hne2)
    · simp

/-- C7: for every decoded payload of each supported MIME type (PDF,
DOCX, PPTX), extraction returns a non-empty text of at most 10,000
characters together with a structure object (the extractors are total
functions into `ExtractedData`), and when nothing matches the extraction
patterns the text is the placeholder string instead of a failure. -/
theorem extract_text_spec (decoded : List Char) :
    ((extractFromPDF decoded).text ≠ [] ∧
      (extractFromPDF decoded).text.length ≤ 10000) ∧
    ((extractFromDOCX decoded).text ≠ [] ∧
      (extractFromDOCX decoded).text.length ≤ 10000) ∧
    ((extractFromPPTX decoded).text ≠ [] ∧
      (extractFromPPTX decoded).text.length ≤ 10000) ∧
    (allowedRuns decoded = [] →
      (extractFromPDF decoded).text = "No text extracted from PDF".toList) ∧
    (scanTagAll "<w:t".toList "</w:t>".toList decoded = [] →
      (extractFromDOCX decoded).text = "No text extracted".toList) ∧
    (scanTagAll "<a:t".toList "</a:t>".toList decoded = [] →
      (extractFromPPTX decoded).text = "No text extracted".toList) :=
  ⟨⟨(extractFromPDF_text_spec decoded).1, (extractFromPDF_text_spec decoded).2.1⟩,
   ⟨(extractFromDOCX_text_spec decoded).1, (extractFromDOCX_text_spec decoded).2.1⟩,
   ⟨(extractFromPPTX_text_spec decoded).1, (extractFromPPTX_text_spec decoded).2.1⟩,
   (extractFromPDF_text_spec decoded).2.2,
   (extractFromDOCX_text_spec decoded).2.2,
   (extractFromPPTX_text_spec decoded).2.2⟩

/-- Concrete witness for `extract_text_spec`: a one-byte payload with no
matchable content gives all three placeholders. -/
theorem extract_text_spec_witness :
    (extractFromPDF ['\x01']).text = "No text extracted from PDF".toList ∧
    (extractFromDOCX ['\x01']).text = "No text extracted".toList ∧
    (extractFromPPTX ['\x01']).text = "No text extracted".toList :=
  ⟨(extract_text_spec ['\x01']).2.2.2.1 (by decide),
   (extract_text_spec ['\x01']).2.2.2.2.1 (by decide),
   (extract_text_spec ['\x01']).2.2.2.2.2 (by decide)⟩
